import Mathlib

/-!
StreamView (gtk2_ardour/streamview.cc)

A shallow embedding of the region-view registry, the layering pass, the
stacked/overlaid geometry, the range query and the recording boxes of
`StreamView`, followed by theorems about them.

Conventions of the embedding:
* `double` values are rationals (`ℚ`) and every arithmetic operation the source
  performs on doubles is rounded to the nearest binary64 value (`round_double`:
  53-bit significand, ties to even); the exponent range is not bounded, so
  overflow and subnormal numbers are outside the model;
* `layer_t` and `nframes_t` are `uint32_t`: they are natural numbers and every
  arithmetic operation the source performs on them is reduced modulo `2^32`;
* pointers to region views are modelled by the field `RegionView.id`;
* collaborators that are not part of the file (`frame_to_pixel`, `coverage`,
  the capture positions of the diskstream, the y position of the track) are
  parameters of the operations that read them.
-/

/-! ## Data model -/

/-- Number of values of a `uint32_t` (`layer_t`, `nframes_t`). -/
def UINT32_SIZE : Nat := 2 ^ 32

/-- The two vertical layouts (`LayerDisplay`). -/
inductive LayerDisplay where
  | Overlaid
  | Stacked
  deriving DecidableEq

/-- Capture mode of a track (`ARDOUR::TrackMode`). -/
inductive TrackMode where
  | Normal
  | NonLayered
  | Destructive
  deriving DecidableEq

/-- Result of `Region::coverage` (`ARDOUR::OverlapType`). -/
inductive OverlapType where
  | OverlapNone
  | OverlapInternal
  | OverlapStart
  | OverlapEnd
  | OverlapExternal
  deriving DecidableEq

/-- A model region: its identity and its layer (`layer_t`). -/
structure Region where
  id : Nat
  layer : Nat
  deriving DecidableEq

/-- A region view: `id` is the identity of the object the registry points to. -/
structure RegionView where
  id : Nat
  region : Region
  valid : Bool
  selected : Bool
  display_enabled : Bool
  y : ℚ
  height : ℚ
  samples_per_unit : ℚ
  coverage_display : LayerDisplay
  deriving DecidableEq

/-- A canvas rectangle (`ArdourCanvas::SimpleRect`): its four edges. -/
structure SimpleRect where
  x1 : ℚ
  y1 : ℚ
  x2 : ℚ
  y2 : ℚ
  deriving DecidableEq

/-- A recording box (`RecBoxInfo`). -/
structure RecBoxInfo where
  rectangle : SimpleRect
  start : Nat
  length : Nat
  deriving DecidableEq

/-- The state of a `StreamView`. `canvas_children` is the z-order of the region
view groups inside `canvas_group`, bottom first, by view identity;
`height_changed_emitted` counts the emissions of the `HeightChanged` signal. -/
structure StreamView where
  region_views : List RegionView
  rec_rects : List RecBoxInfo
  _samples_per_unit : ℚ
  rec_updating : Bool
  rec_active : Bool
  _layers : Nat
  _layer_display : LayerDisplay
  height : ℚ
  canvas_rect : SimpleRect
  canvas_children : List Nat
  height_changed_emitted : Nat
  deriving DecidableEq

/-! ## Region views -/

/-- `RegionView::enable_display`. -/
def RegionView.enable_display (v : RegionView) (yn : Bool) : RegionView :=
  { v with display_enabled := yn }

/-- `RegionView::set_y`. -/
def RegionView.set_y (v : RegionView) (y : ℚ) : RegionView :=
  { v with y := y }

/-- `RegionView::set_height`. -/
def RegionView.set_height (v : RegionView) (h : ℚ) : RegionView :=
  { v with height := h }

/-! ## The canvas -/

/-- Modelled from the spec: the canvas toolkit is not part of the sources;
raising a visual to the front makes it the top-most child of its group and
keeps the order of the others. -/
def raise_to_top (x : Nat) (z : List Nat) : List Nat :=
  z.filter (fun c => c ≠ x) ++ [x]

/-- Modelled from the spec: deleting a region view destroys its canvas
resources, so its group leaves the z-order of the canvas group. -/
def destroy_view (v : RegionView) (z : List Nat) : List Nat :=
  z.filter (fun c => c ≠ v.id)

/-- The second loop of `layer_regions`: raise each view of the sorted list, in
that order. -/
def raise_all : List Nat → List Nat → List Nat
  | [], z => z
  | x :: xs, z => raise_all xs (raise_to_top x z)

/-! ## layer_regions -/

/-- The inner `for` loop of `layer_regions`: insert `v` before the first
element whose layer is at least the layer of `v`; when the loop finds none it
ends without inserting. -/
def layer_regions_insert (v : RegionView) : List RegionView → List RegionView
  | [] => []
  | j :: rest =>
    if j.region.layer ≥ v.region.layer then v :: j :: rest
    else j :: layer_regions_insert v rest

/-- What one iteration of the traversal does to the sorted `copy` for a valid
view `v`. -/
def layer_regions_place (copy : List RegionView) (v : RegionView) : List RegionView :=
  match copy with
  | [] => [v]
  | k :: rest =>
    if v.region.layer ≤ k.region.layer then v :: k :: rest
    else if v.region.layer ≥ ((k :: rest).getLast (List.cons_ne_nil k rest)).region.layer then
      (k :: rest) ++ [v]
    else layer_regions_insert v (k :: rest)

/-- The traversal of `layer_regions`: `kept` is the part of the registry
already walked (invalid views deleted and erased), `copy` the sorted list built
so far, `z` the z-order of the canvas group. -/
def layer_regions_scan :
    List RegionView → List RegionView → List RegionView → List Nat →
      List RegionView × List RegionView × List Nat
  | [], kept, copy, z => (kept, copy, z)
  | v :: rest, kept, copy, z =>
    if !v.valid then layer_regions_scan rest kept copy (destroy_view v z)
    else
      layer_regions_scan rest (kept ++ [v.enable_display true])
        (layer_regions_place copy (v.enable_display true)) z

/-- The sequence in which `layer_regions` raises views to the top (the list
`copy` after the traversal). -/
def StreamView.layer_regions_order (s : StreamView) : List RegionView :=
  (layer_regions_scan s.region_views [] [] s.canvas_children).2.1

/-- `StreamView::layer_regions`. -/
def StreamView.layer_regions (s : StreamView) : StreamView :=
  let r := layer_regions_scan s.region_views [] [] s.canvas_children
  { s with
    region_views := r.1
    canvas_children := raise_all (r.2.1.map (fun v => v.id)) r.2.2 }

/-! ## Double arithmetic -/

/-- Rounding of a rational to the nearest integer, ties to the even one. -/
def round_half_even (q : ℚ) : ℤ :=
  if q - (⌊q⌋ : ℚ) < 1 / 2 then ⌊q⌋
  else if 1 / 2 < q - (⌊q⌋ : ℚ) then ⌊q⌋ + 1
  else if ⌊q⌋ % 2 = 0 then ⌊q⌋ else ⌊q⌋ + 1

/-- The result of a `double` operation whose exact value is `x`: the nearest
number with a 53-bit significand, ties to even. `Int.log 2 |x|` is the exponent
`e` with `2^e ≤ |x| < 2^(e+1)`. -/
def round_double (x : ℚ) : ℚ :=
  if x = 0 then 0
  else
    (round_half_even (x * (2 : ℚ) ^ (52 - Int.log 2 |x|)) : ℚ) * (2 : ℚ) ^ (Int.log 2 |x| - 52)

/-- The exact value `x` is a `double`: the operation producing it does not
round. -/
def exact_double (x : ℚ) : Prop :=
  round_double x = x

/-! ## Geometry -/

/-- `StreamView::child_height`: height of a child region view, the quotient
being a `double` division. The model is meant for `_layers ≥ 1` (a zero
`_layers` gives a non-finite `double` in the source). -/
def StreamView.child_height (s : StreamView) : ℚ :=
  if s._layer_display = LayerDisplay.Stacked then round_double (s.height / (s._layers : ℚ))
  else s.height

/-- The body of the first loop of `update_contents_height` for one view; the
sum `layer() + 1` is computed in `layer_t`, the product and the difference in
`double`. -/
def update_view_height (d : LayerDisplay) (height h : ℚ) (v : RegionView) : RegionView :=
  match d with
  | LayerDisplay.Overlaid => (v.set_y 0).set_height h
  | LayerDisplay.Stacked =>
    (v.set_y (round_double
      (height - round_double ((((v.region.layer + 1) % UINT32_SIZE : Nat) : ℚ) * h)))).set_height h

/-- `StreamView::update_contents_height`. -/
def StreamView.update_contents_height (s : StreamView) : StreamView :=
  let h := s.child_height
  { s with
    region_views := s.region_views.map (update_view_height s._layer_display s.height h)
    rec_rects := s.rec_rects.map
      (fun b => { b with rectangle := { b.rectangle with y2 := round_double (s.height - 1) } }) }

/-- `StreamView::set_height`: the returned code and the new state. -/
def StreamView.set_height (s : StreamView) (h : ℚ) : Int × StreamView :=
  if h < 10 ∨ h > 1000 then (-1, s)
  else if s.canvas_rect.y2 = h then (0, s)
  else
    let s1 : StreamView := { s with height := h }
    let s2 : StreamView := { s1 with canvas_rect := { s1.canvas_rect with y2 := s1.height } }
    let s3 := s2.update_contents_height
    (0, { s3 with height_changed_emitted := s3.height_changed_emitted + 1 })

/-! ## Range query -/

/-- Conversion of a `double` to `layer_t`: the value is truncated towards zero;
the conversion is undefined (`none`) when the truncated value is not a
`uint32_t`. -/
def double_to_layer (x : ℚ) : Option Nat :=
  if -1 < x ∧ x < (UINT32_SIZE : ℚ) then some (Int.toNat ⌊x⌋) else none

/-- The layer bounds `(min_layer, max_layer)` that `get_selectables` computes
before its loop: each difference and each quotient is a `double` operation. A
zero child height makes the quotients non-finite, whose conversion is
undefined. -/
def StreamView.selectable_layers (s : StreamView) (y_position top bottom : ℚ) :
    Option (Nat × Nat) :=
  if s._layer_display = LayerDisplay.Stacked then
    let c := s.child_height
    if c = 0 then none
    else
      match double_to_layer
              (round_double
                ((s._layers : ℚ) - round_double (round_double (bottom - y_position) / c))),
            double_to_layer
              (round_double
                ((s._layers : ℚ) - round_double (round_double (top - y_position) / c)))
        with
      | some min_layer, some max_layer => some (min_layer, max_layer)
      | _, _ => none
  else some (0, 0)

/-- The test of the loop of `get_selectables` for one view. -/
def StreamView.is_selectable (s : StreamView) (coverage : Region → Nat → Nat → OverlapType)
    (start stop : Nat) (min_layer max_layer : Nat) (v : RegionView) : Bool :=
  let layer_ok : Bool :=
    if s._layer_display = LayerDisplay.Stacked then
      decide (min_layer ≤ v.region.layer ∧ v.region.layer ≤ max_layer)
    else true
  decide (coverage v.region start stop ≠ OverlapType.OverlapNone) && layer_ok

/-- `StreamView::get_selectables`: the list `results` after the call, `none`
when a conversion to `layer_t` is undefined. `coverage` is `Region::coverage`,
`y_position` is `_trackview.y_position()`. -/
def StreamView.get_selectables (s : StreamView) (coverage : Region → Nat → Nat → OverlapType)
    (y_position : ℚ) (start stop : Nat) (top bottom : ℚ) (results : List RegionView) :
    Option (List RegionView) :=
  (s.selectable_layers y_position top bottom).map fun b =>
    results ++ s.region_views.filter (s.is_selectable coverage start stop b.1 b.2)

/-! ## Recording boxes -/

/-- Apply `f` to the last element of a list (`rec_rects.back()` is a
reference). -/
def modify_back {α : Type} (f : α → α) : List α → List α
  | [] => []
  | [x] => [f x]
  | x :: y :: rest => x :: modify_back f (y :: rest)

/-- The update of the last box in `update_rec_box`; `at_frame` is
`current_capture_end()`, the difference is computed in `nframes_t`. -/
def update_rec_rect (mode : TrackMode) (frame_to_pixel : Nat → ℚ)
    (capture_start at_frame : Nat) (rect : RecBoxInfo) : RecBoxInfo :=
  match mode with
  | TrackMode.NonLayered | TrackMode.Normal =>
    { rect with
      length := (at_frame + UINT32_SIZE - rect.start) % UINT32_SIZE
      rectangle := { rect.rectangle with
        x1 := frame_to_pixel rect.start
        x2 := frame_to_pixel at_frame } }
  | TrackMode.Destructive =>
    { rect with
      length := 2
      rectangle := { rect.rectangle with
        x1 := frame_to_pixel capture_start
        x2 := frame_to_pixel at_frame } }

/-- `StreamView::update_rec_box`. `mode` is the mode of the track,
`capture_start` and `capture_end` are the capture positions of the diskstream,
`frame_to_pixel` is the projection of the editor. -/
def StreamView.update_rec_box (s : StreamView) (mode : TrackMode) (frame_to_pixel : Nat → ℚ)
    (capture_start capture_end : Nat) : StreamView :=
  if s.rec_active && decide (s.rec_rects.length > 0) then
    { s with
      rec_rects := modify_back (update_rec_rect mode frame_to_pixel capture_start capture_end)
        s.rec_rects }
  else s

/-! ## Scale, selection, registry lookup -/

/-- `RegionView::set_samples_per_unit`. -/
def RegionView.set_samples_per_unit (v : RegionView) (spp : ℚ) : RegionView :=
  { v with samples_per_unit := spp }

/-- `RegionView::set_selected`. -/
def RegionView.set_selected (v : RegionView) (yn : Bool) : RegionView :=
  { v with selected := yn }

/-- `RegionView::update_coverage_frames`: its body is not part of this file; the
view records the layout it was asked to draw its coverage frames for. -/
def RegionView.update_coverage_frames (v : RegionView) (d : LayerDisplay) : RegionView :=
  { v with coverage_display := d }

/-- `StreamView::update_coverage_frames`. -/
def StreamView.update_coverage_frames (s : StreamView) : StreamView :=
  { s with
    region_views := s.region_views.map (fun v => v.update_coverage_frames s._layer_display) }

/-- The body of the second loop of `set_samples_per_unit` for one box; the sum
`recbox.start + recbox.length` is computed in `nframes_t`. -/
def reproject_rec_rect (frame_to_pixel : Nat → ℚ) (recbox : RecBoxInfo) : RecBoxInfo :=
  { recbox with
    rectangle := { recbox.rectangle with
      x1 := frame_to_pixel recbox.start
      x2 := frame_to_pixel ((recbox.start + recbox.length) % UINT32_SIZE) } }

/-- `StreamView::set_samples_per_unit`: the returned code and the new state.
`frame_to_pixel` is the projection of the editor. -/
def StreamView.set_samples_per_unit (s : StreamView) (frame_to_pixel : Nat → ℚ) (spp : ℚ) :
    Int × StreamView :=
  if spp < 1 then (-1, s)
  else
    let s1 : StreamView :=
      { s with
        _samples_per_unit := spp
        region_views := s.region_views.map (fun v => v.set_samples_per_unit spp)
        rec_rects := s.rec_rects.map (reproject_rec_rect frame_to_pixel) }
    (0, s1.update_coverage_frames)

/-- The loop of `remove_region_view`: erase and delete the first view whose
region is `r` (regions are compared by identity). -/
def remove_region_view_loop (r : Region) :
    List RegionView → List Nat → List RegionView × List Nat
  | [], z => ([], z)
  | v :: rest, z =>
    if v.region.id = r.id then (rest, destroy_view v z)
    else ((v :: (remove_region_view_loop r rest z).1), (remove_region_view_loop r rest z).2)

/-- `StreamView::remove_region_view`; `weak_r` is `none` when the weak pointer
has expired. -/
def StreamView.remove_region_view (s : StreamView) (weak_r : Option Region) : StreamView :=
  match weak_r with
  | none => s
  | some r =>
    { s with
      region_views := (remove_region_view_loop r s.region_views s.canvas_children).1
      canvas_children := (remove_region_view_loop r s.region_views s.canvas_children).2 }

/-- `StreamView::undisplay_diskstream`: delete every view and clear the list. -/
def StreamView.undisplay_diskstream (s : StreamView) : StreamView :=
  { s with
    region_views := []
    canvas_children := s.region_views.foldl (fun z v => destroy_view v z) s.canvas_children }

/-- `StreamView::find_view`: the first view whose region is `region`, `none` for
the null pointer. -/
def StreamView.find_view (s : StreamView) (region : Region) : Option RegionView :=
  s.region_views.find? (fun v => decide (v.region.id = region.id))

/-- The loop of `num_selected_regionviews`; `cnt` is a `uint32_t`. -/
def count_selected : List RegionView → Nat → Nat
  | [], cnt => cnt
  | v :: rest, cnt =>
    if v.selected then count_selected rest ((cnt + 1) % UINT32_SIZE)
    else count_selected rest cnt

/-- `StreamView::num_selected_regionviews`. -/
def StreamView.num_selected_regionviews (s : StreamView) : Nat :=
  count_selected s.region_views 0

/-- The inner loop of `set_selected_regionviews`: is the view one of the
pointers of the selection (given by their identities). -/
def selection_contains (v : RegionView) : List Nat → Bool
  | [] => false
  | ii :: rest => if v.id = ii then true else selection_contains v rest

/-- `StreamView::set_selected_regionviews`; `regions` lists the identities of
the views of the `RegionSelection`. -/
def StreamView.set_selected_regionviews (s : StreamView) (regions : List Nat) : StreamView :=
  { s with
    region_views := s.region_views.map (fun v => v.set_selected (selection_contains v regions)) }

/-! ## Notifications of the playlist and the transport -/

/-- A playlist as seen by the stream view: its top layer (`layer_t`). -/
structure Playlist where
  top_layer : Nat
  deriving DecidableEq

/-- A diskstream as seen by the stream view: its playlist, if any. -/
structure Diskstream where
  playlist : Option Playlist
  deriving DecidableEq

/-- The constructor `StreamView::StreamView`: `zoom` is
`editor().get_current_zoom()`, `tv_height` is `tv.height`, `tv_current_height`
is `tv.current_height()`, `screen_width` is `get_physical_screen_width()`. -/
def StreamView.construct (zoom tv_height tv_current_height screen_width : ℚ) : StreamView :=
  { region_views := []
    rec_rects := []
    _samples_per_unit := zoom
    rec_updating := false
    rec_active := false
    _layers := 1
    _layer_display := LayerDisplay.Overlaid
    height := tv_height
    canvas_rect := { x1 := 0, y1 := 0, x2 := screen_width, y2 := tv_current_height }
    canvas_children := []
    height_changed_emitted := 0 }

/-- `StreamView::playlist_layered`; `wds` is `none` when the weak pointer to the
diskstream has expired. The sum `top_layer() + 1` is computed in `layer_t`. -/
def StreamView.playlist_layered (s : StreamView) (wds : Option Diskstream) : StreamView :=
  match wds with
  | none => s
  | some ds =>
    let s1 : StreamView :=
      match ds.playlist with
      | some pl => { s with _layers := (pl.top_layer + 1) % UINT32_SIZE }
      | none => s
    if s1._layer_display = LayerDisplay.Stacked then
      s1.update_contents_height.update_coverage_frames
    else s1.layer_regions

/-- Modelled from the spec: `redisplay_diskstream` is implemented by the
subclasses of `StreamView`; it draws the playlist, creating one view per
region: `redisplayed` are the views it creates. -/
def StreamView.redisplay_diskstream (s : StreamView) (redisplayed : List RegionView) :
    StreamView :=
  { s with
    region_views := redisplayed
    canvas_children := s.canvas_children ++ redisplayed.map (fun v => v.id) }

/-- `StreamView::playlist_switched`. A diskstream without a playlist makes the
source dereference a null pointer: the result is `none`. -/
def StreamView.playlist_switched (s : StreamView) (wds : Option Diskstream)
    (redisplayed : List RegionView) : Option StreamView :=
  match wds with
  | none => some s
  | some ds =>
    match ds.playlist with
    | none => none
    | some pl =>
      let s1 := s.undisplay_diskstream
      let s2 : StreamView := { s1 with _layers := (pl.top_layer + 1) % UINT32_SIZE }
      let s3 := s2.update_contents_height.update_coverage_frames
      some (s3.redisplay_diskstream redisplayed)

/-- `StreamView::set_layer_display`. -/
def StreamView.set_layer_display (s : StreamView) (d : LayerDisplay) : StreamView :=
  let s1 : StreamView := { s with _layer_display := d }
  s1.update_contents_height.update_coverage_frames

/-- `StreamView::transport_looped`: the flag is cleared at once; the call of
`setup_rec_box` is queued for later. -/
def StreamView.transport_looped (s : StreamView) : StreamView :=
  { s with rec_active := false }

/-- The states the claims on the layer count speak about: the constructed
state and what `playlist_layered` and `playlist_switched` make of a reachable
state when the top layer of the playlist is below the maximum of `layer_t`;
`set_layer_display`, `set_height` and `layer_regions` are allowed in between. -/
inductive StreamView.Reachable : StreamView → Prop where
  | construct (zoom tv_height tv_current_height screen_width : ℚ) :
      StreamView.Reachable (StreamView.construct zoom tv_height tv_current_height screen_width)
  | playlist_layered (s : StreamView) (wds : Option Diskstream) :
      StreamView.Reachable s →
      (∀ ds pl, wds = some ds → ds.playlist = some pl → pl.top_layer + 1 < UINT32_SIZE) →
      StreamView.Reachable (s.playlist_layered wds)
  | playlist_switched (s t : StreamView) (wds : Option Diskstream)
      (redisplayed : List RegionView) :
      StreamView.Reachable s →
      (∀ ds pl, wds = some ds → ds.playlist = some pl → pl.top_layer + 1 < UINT32_SIZE) →
      s.playlist_switched wds redisplayed = some t →
      StreamView.Reachable t
  | set_layer_display (s : StreamView) (d : LayerDisplay) :
      StreamView.Reachable s → StreamView.Reachable (s.set_layer_display d)
  | set_height (s : StreamView) (h : ℚ) :
      StreamView.Reachable s → StreamView.Reachable (s.set_height h).2
  | layer_regions (s : StreamView) :
      StreamView.Reachable s → StreamView.Reachable s.layer_regions

/-! ## Definitions used in the statements, and concrete states -/

/-- Views ordered by non-decreasing region layer. -/
def LayerSorted (l : List RegionView) : Prop :=
  l.Pairwise (fun a b => a.region.layer ≤ b.region.layer)

/-- The valid views of a registry, display enabled, in registry order: what
the traversal keeps. -/
def valid_views (vs : List RegionView) : List RegionView :=
  (vs.filter (fun v => v.valid)).map (fun v => v.enable_display true)

/-- A view with identity `i` on a region of layer `l`. -/
def sample_view (i l : Nat) (valid : Bool) : RegionView :=
  { id := i, region := { id := i, layer := l }, valid := valid, selected := false,
    display_enabled := false, y := 0, height := 0, samples_per_unit := 1,
    coverage_display := LayerDisplay.Overlaid }

/-- A stream view of height 100 in the given mode holding the given views. -/
def sample_stream (d : LayerDisplay) (layers : Nat) (vs : List RegionView) : StreamView :=
  { region_views := vs, rec_rects := [], _samples_per_unit := 1, rec_updating := false,
    rec_active := false, _layers := layers, _layer_display := d, height := 100,
    canvas_rect := { x1 := 0, y1 := 0, x2 := 1000, y2 := 100 },
    canvas_children := vs.map (fun v => v.id), height_changed_emitted := 0 }

/-- A coverage function for the examples: every region overlaps every range. -/
def coverage_all (_r : Region) (_start _stop : Nat) : OverlapType :=
  OverlapType.OverlapInternal

/-- The box `b` grown to the capture end `E`: length `E - start`, rectangle
from `frame_to_pixel start` to `frame_to_pixel E`, everything else as in `b`. -/
def grown_rec_box (frame_to_pixel : Nat → ℚ) (b : RecBoxInfo) (E : Nat) : RecBoxInfo :=
  { b with
    length := E - b.start
    rectangle := { b.rectangle with
      x1 := frame_to_pixel b.start
      x2 := frame_to_pixel E } }

/-- A projection for the examples: two frames per pixel. -/
def sample_frame_to_pixel (frame : Nat) : ℚ :=
  (frame : ℚ) / 2

/-- A recording stream view: one box starting at frame 1000, of length 0. -/
def sample_recording : StreamView :=
  { sample_stream LayerDisplay.Overlaid 1 [] with
    rec_active := true
    rec_rects := [{ rectangle := { x1 := 500, y1 := 1, x2 := 500, y2 := 99 },
                    start := 1000, length := 0 }] }

/-- A recording stream view whose box starts at the last frame an `nframes_t`
can hold and has the length 2 of a Destructive box. -/
def late_recording : StreamView :=
  { sample_stream LayerDisplay.Overlaid 1 [] with
    rec_active := true
    rec_rects := [{ rectangle := { x1 := 0, y1 := 1, x2 := 0, y2 := 99 },
                    start := 4294967295, length := 2 }] }

theorem sublist_pair_of_layer_lt {l : List RegionView} (hs : LayerSorted l)
    {a b : RegionView} (ha : a ∈ l) (hb : b ∈ l) (hlt : a.region.layer < b.region.layer) :
    List.Sublist [a, b] l := by
  induction l with
  | nil => cases ha
  | cons x xs ih =>
    have hx := List.pairwise_cons.mp hs
    rcases List.mem_cons.mp ha with rfl | ha'
    · rcases List.mem_cons.mp hb with rfl | hb'
      · exact absurd hlt (lt_irrefl _)
      · exact List.Sublist.cons₂ _ (List.singleton_sublist.mpr hb')
    · rcases List.mem_cons.mp hb with rfl | hb'
      · exact absurd (hx.1 a ha') (not_le.mpr hlt)
      · exact List.Sublist.cons _ (ih hx.2 ha' hb')

theorem not_sublist_pair_of_layer_lt {l : List RegionView} (hs : LayerSorted l)
    {a b : RegionView} (hlt : a.region.layer < b.region.layer) : ¬ List.Sublist [b, a] l := by
  intro h
  have h2 : LayerSorted [b, a] := List.Pairwise.sublist h hs
  have h3 := (List.pairwise_cons.mp h2).1 a (List.mem_singleton.mpr rfl)
  exact absurd h3 (not_le.mpr hlt)

theorem nodup_pair_not_swapped {α : Type} {l : List α} (hn : l.Nodup) {a b : α}
    (hab : List.Sublist [a, b] l) : ¬ List.Sublist [b, a] l := by
  induction l with
  | nil => cases hab
  | cons x xs ih =>
    have hx := List.nodup_cons.mp hn
    intro hba
    cases hab with
    | cons _ h1 =>
      cases hba with
      | cons _ h2 => exact ih hx.2 h1 h2
      | cons₂ _ h2 =>
        exact hx.1 (h1.subset (by simp))
    | cons₂ _ h1 =>
      cases hba with
      | cons _ h2 => exact hx.1 (h2.subset (by simp))
      | cons₂ _ h2 => exact hx.1 (h1.subset (by simp))

theorem sublist_pair_of_append {α : Type} {A B : List α} {a b : α} (ha : a ∉ A)
    (h : List.Sublist [a, b] (A ++ B)) : List.Sublist [a, b] B := by
  induction A with
  | nil => simpa using h
  | cons x xs ih =>
    have hx : a ≠ x := fun e => ha (by simp [e])
    have hxs : a ∉ xs := fun e => ha (by simp [e])
    rw [List.cons_append] at h
    cases h with
    | cons _ h1 => exact ih hxs h1
    | cons₂ _ h1 => exact absurd rfl hx

theorem le_getLast_of_sorted {l : List RegionView} (hs : LayerSorted l) (hne : l ≠ [])
    {x : RegionView} (hx : x ∈ l) : x.region.layer ≤ (l.getLast hne).region.layer := by
  have hl := List.dropLast_append_getLast hne
  rw [← hl] at hs hx
  unfold LayerSorted at hs
  rw [List.pairwise_append] at hs
  rcases List.mem_append.mp hx with h | h
  · exact hs.2.2 x h _ (List.mem_singleton.mpr rfl)
  · rw [List.mem_singleton.mp h]

/-! ## Lemmas on the traversal of layer_regions -/

theorem layer_regions_scan_eq (vs kept copy : List RegionView) (z : List Nat) :
    (layer_regions_scan vs kept copy z).1 = kept ++ valid_views vs ∧
    (layer_regions_scan vs kept copy z).2.1 = (valid_views vs).foldl layer_regions_place copy := by
  induction vs generalizing kept copy z with
  | nil => simp [layer_regions_scan, valid_views]
  | cons v rest ih =>
    unfold layer_regions_scan
    cases hv : v.valid
    · simpa [valid_views, hv] using ih kept copy (destroy_view v z)
    · simpa [valid_views, hv] using
        ih (kept ++ [v.enable_display true]) (layer_regions_place copy (v.enable_display true)) z

theorem layer_regions_scan_canvas (vs kept copy : List RegionView) (z : List Nat)
    (hall : ∀ v ∈ vs, v.valid = true) : (layer_regions_scan vs kept copy z).2.2 = z := by
  induction vs generalizing kept copy with
  | nil => rfl
  | cons v rest ih =>
    unfold layer_regions_scan
    have hv : v.valid = true := hall v (List.mem_cons_self _ _)
    simp only [hv, Bool.not_true, Bool.false_eq_true, if_false]
    exact ih _ _ (fun u hu => hall u (List.mem_cons_of_mem _ hu))

theorem valid_views_valid (vs : List RegionView) : ∀ v ∈ valid_views vs, v.valid = true := by
  intro v hv
  unfold valid_views at hv
  obtain ⟨u, hu, rfl⟩ := List.mem_map.mp hv
  simpa [RegionView.enable_display] using (List.mem_filter.mp hu).2

theorem layer_regions_insert_sublist (v : RegionView) (l : List RegionView) :
    List.Sublist l (layer_regions_insert v l) := by
  induction l with
  | nil => exact List.Sublist.refl _
  | cons j rest ih =>
    unfold layer_regions_insert
    split
    · exact List.Sublist.cons _ (List.Sublist.refl _)
    · exact List.Sublist.cons₂ _ ih

theorem layer_regions_insert_perm (v : RegionView) (l : List RegionView)
    (h : ∃ j ∈ l, v.region.layer ≤ j.region.layer) :
    (layer_regions_insert v l).Perm (v :: l) := by
  induction l with
  | nil => obtain ⟨j, hj, _⟩ := h; cases hj
  | cons j rest ih =>
    unfold layer_regions_insert
    split
    · exact List.Perm.refl _
    · rename_i hj
      have h2 : ∃ j ∈ rest, v.region.layer ≤ j.region.layer := by
        obtain ⟨u, hu, hle⟩ := h
        rcases List.mem_cons.mp hu with rfl | hu'
        · exact absurd hle hj
        · exact ⟨u, hu', hle⟩
      exact ((ih h2).cons j).trans (List.Perm.swap v j rest)

theorem layer_regions_insert_mem (v : RegionView) (l : List RegionView) (x : RegionView)
    (hx : x ∈ layer_regions_insert v l) : x = v ∨ x ∈ l := by
  induction l with
  | nil => cases hx
  | cons j rest ih =>
    unfold layer_regions_insert at hx
    split at hx
    · rcases List.mem_cons.mp hx with h | h
      · exact Or.inl h
      · exact Or.inr h
    · rcases List.mem_cons.mp hx with h | h
      · exact Or.inr (by simp [h])
      · rcases ih h with h2 | h2
        · exact Or.inl h2
        · exact Or.inr (List.mem_cons_of_mem _ h2)

theorem layer_regions_insert_sorted (v : RegionView) (l : List RegionView)
    (hs : LayerSorted l) : LayerSorted (layer_regions_insert v l) := by
  induction l with
  | nil => exact List.Pairwise.nil
  | cons j rest ih =>
    have hj := List.pairwise_cons.mp hs
    unfold layer_regions_insert
    split
    · rename_i hle
      refine List.pairwise_cons.mpr ⟨?_, hs⟩
      intro x hx
      rcases List.mem_cons.mp hx with rfl | hx'
      · exact hle
      · exact le_trans hle (hj.1 x hx')
    · rename_i hnle
      refine List.pairwise_cons.mpr ⟨?_, ih hj.2⟩
      intro x hx
      rcases layer_regions_insert_mem v rest x hx with rfl | hx'
      · exact le_of_lt (not_le.mp hnle)
      · exact hj.1 x hx'

theorem layer_regions_place_sublist (copy : List RegionView) (v : RegionView) :
    List.Sublist copy (layer_regions_place copy v) := by
  unfold layer_regions_place
  split
  · exact List.nil_sublist _
  · split
    · exact List.Sublist.cons _ (List.Sublist.refl _)
    · split
      · exact List.sublist_append_left _ _
      · exact layer_regions_insert_sublist _ _

theorem layer_regions_place_sorted (copy : List RegionView) (v : RegionView)
    (hs : LayerSorted copy) : LayerSorted (layer_regions_place copy v) := by
  unfold layer_regions_place
  split
  · exact List.pairwise_singleton _ _
  · rename_i k rest
    have hk := List.pairwise_cons.mp hs
    split
    · rename_i hle
      refine List.pairwise_cons.mpr ⟨?_, hs⟩
      intro x hx
      rcases List.mem_cons.mp hx with rfl | hx'
      · exact hle
      · exact le_trans hle (hk.1 x hx')
    · split
      · rename_i hge
        unfold LayerSorted
        rw [List.pairwise_append]
        refine ⟨hs, List.pairwise_singleton _ _, ?_⟩
        intro x hx y hy
        rw [List.mem_singleton.mp hy]
        exact le_trans (le_getLast_of_sorted hs (List.cons_ne_nil k rest) hx) hge
      · exact layer_regions_insert_sorted _ _ hs

theorem layer_regions_place_perm (copy : List RegionView) (v : RegionView) :
    (layer_regions_place copy v).Perm (v :: copy) := by
  unfold layer_regions_place
  split
  · exact List.Perm.refl _
  · rename_i k rest
    split
    · exact List.Perm.refl _
    · split
      · exact List.perm_append_singleton _ _
      · rename_i hnge
        exact layer_regions_insert_perm v (k :: rest)
          ⟨(k :: rest).getLast (List.cons_ne_nil k rest), List.getLast_mem _,
            le_of_lt (not_le.mp hnge)⟩

theorem layer_regions_fold_sorted (vs copy : List RegionView) (hs : LayerSorted copy) :
    LayerSorted (vs.foldl layer_regions_place copy) := by
  induction vs generalizing copy with
  | nil => exact hs
  | cons v rest ih => exact ih _ (layer_regions_place_sorted copy v hs)

theorem layer_regions_fold_perm (vs copy : List RegionView) :
    (vs.foldl layer_regions_place copy).Perm (copy ++ vs) := by
  induction vs generalizing copy with
  | nil => simp
  | cons v rest ih =>
    refine (ih (layer_regions_place copy v)).trans ?_
    refine ((layer_regions_place_perm copy v).append_right rest).trans ?_
    have hm : (copy ++ v :: rest).Perm (v :: (copy ++ rest)) := List.perm_middle
    simpa using hm.symm

theorem layer_regions_fold_sublist (vs copy : List RegionView) :
    List.Sublist copy (vs.foldl layer_regions_place copy) := by
  induction vs generalizing copy with
  | nil => exact List.Sublist.refl _
  | cons v rest ih => exact (layer_regions_place_sublist copy v).trans (ih _)

theorem layer_regions_order_eq (s : StreamView) :
    s.layer_regions_order = (valid_views s.region_views).foldl layer_regions_place [] := by
  simp [StreamView.layer_regions_order, (layer_regions_scan_eq _ _ _ _).2]

theorem layer_regions_order_sorted (s : StreamView) : LayerSorted s.layer_regions_order := by
  rw [layer_regions_order_eq]
  exact layer_regions_fold_sorted _ _ List.Pairwise.nil

theorem layer_regions_order_perm (s : StreamView) :
    s.layer_regions_order.Perm (valid_views s.region_views) := by
  rw [layer_regions_order_eq]
  simpa using layer_regions_fold_perm (valid_views s.region_views) []

theorem mem_valid_views {vs : List RegionView} {v : RegionView} (hv : v ∈ vs)
    (hval : v.valid = true) : v.enable_display true ∈ valid_views vs := by
  unfold valid_views
  exact List.mem_map_of_mem _ (List.mem_filter.mpr ⟨hv, by simpa using hval⟩)

/-! ## Lemmas on the canvas z-order -/

theorem raise_all_eq (c z : List Nat) :
    raise_all c z = z.filter (fun x => decide (x ∉ c)) ++ raise_all c [] := by
  induction c generalizing z with
  | nil => simp [raise_all]
  | cons x xs ih =>
    simp only [raise_all]
    rw [ih (raise_to_top x z), ih (raise_to_top x [])]
    simp only [raise_to_top, List.filter_append, List.filter_filter, List.filter_nil,
      List.nil_append, List.append_assoc]
    congr 1
    apply List.filter_congr
    intro y _
    simp [List.mem_cons, not_or, Bool.and_comm]

theorem raise_all_nil_mem (c : List Nat) : ∀ y ∈ raise_all c [], y ∈ c := by
  induction c with
  | nil => intro y hy; simp [raise_all] at hy
  | cons x xs ih =>
    intro y hy
    simp only [raise_all] at hy
    rw [raise_all_eq] at hy
    rcases List.mem_append.mp hy with h | h
    · have := (List.mem_filter.mp h).1
      simp [raise_to_top] at this
      simp [this]
    · exact List.mem_cons_of_mem _ (ih y h)

theorem raise_all_nil_of_nodup (c : List Nat) (hn : c.Nodup) : raise_all c [] = c := by
  induction c with
  | nil => rfl
  | cons x xs ih =>
    have hx := List.nodup_cons.mp hn
    simp only [raise_all]
    rw [raise_all_eq, ih hx.2]
    simp [raise_to_top, hx.1]

theorem raise_all_idem (c z : List Nat) : raise_all c (raise_all c z) = raise_all c z := by
  rw [raise_all_eq c (raise_all c z)]
  conv_lhs => rw [raise_all_eq c z]
  rw [List.filter_append, List.filter_filter]
  have h1 : (raise_all c []).filter (fun x => decide (x ∉ c)) = [] := by
    rw [List.filter_eq_nil_iff]
    intro y hy
    simpa using raise_all_nil_mem c y hy
  rw [h1, List.append_nil, raise_all_eq c z]
  congr 1
  apply List.filter_congr
  intro y _
  simp

theorem valid_views_idem (vs : List RegionView) : valid_views (valid_views vs) = valid_views vs := by
  induction vs with
  | nil => rfl
  | cons v rest ih =>
    unfold valid_views at ih ⊢
    cases hv : v.valid
    · simpa [hv] using ih
    · simp only [List.filter_cons, hv, if_true, List.map_cons]
      have : (v.enable_display true).valid = true := by simp [RegionView.enable_display, hv]
      simp only [this, if_true, List.map_cons]
      congr 1

theorem valid_views_ids_sublist (vs : List RegionView) :
    List.Sublist ((valid_views vs).map (fun v => v.id)) (vs.map (fun v => v.id)) := by
  have h : (valid_views vs).map (fun v => v.id) = (vs.filter (fun v => v.valid)).map (fun v => v.id) := by
    simp [valid_views, List.map_map, Function.comp_def, RegionView.enable_display]
  rw [h]
  exact (List.filter_sublist _).map _

/-! ## Lemmas on views of equal layer -/

theorem layer_regions_insert_front (v x : RegionView) (l : List RegionView) (hx : x ∈ l)
    (hle : v.region.layer ≤ x.region.layer) :
    List.Sublist [v, x] (layer_regions_insert v l) := by
  induction l with
  | nil => cases hx
  | cons j rest ih =>
    unfold layer_regions_insert
    split
    · exact List.Sublist.cons₂ _ (List.singleton_sublist.mpr hx)
    · rename_i hj
      rcases List.mem_cons.mp hx with rfl | hx'
      · exact absurd hle hj
      · exact List.Sublist.cons _ (ih hx')

theorem layer_regions_place_equal_back (c : List RegionView) (v x : RegionView)
    (hs : LayerSorted c) (hx : x ∈ c)
    (hlow : ∃ u ∈ c, u.region.layer < v.region.layer)
    (hhigh : ∀ u ∈ c, u.region.layer ≤ v.region.layer) :
    List.Sublist [x, v] (layer_regions_place c v) := by
  unfold layer_regions_place
  split
  · cases hx
  · rename_i k rest
    have hk := List.pairwise_cons.mp hs
    have hklt : k.region.layer < v.region.layer := by
      obtain ⟨u, hu, hult⟩ := hlow
      rcases List.mem_cons.mp hu with rfl | hu'
      · exact hult
      · exact lt_of_le_of_lt (hk.1 u hu') hult
    rw [if_neg (not_le.mpr hklt), if_pos (hhigh _ (List.getLast_mem _))]
    exact List.Sublist.append (List.singleton_sublist.mpr hx) (List.Sublist.refl [v])

theorem layer_regions_place_equal_front (c : List RegionView) (v x : RegionView)
    (hs : LayerSorted c) (hx : x ∈ c) (heq : x.region.layer = v.region.layer)
    (hnot : ¬ ((∃ u ∈ c, u.region.layer < v.region.layer) ∧
      (∀ u ∈ c, u.region.layer ≤ v.region.layer))) :
    List.Sublist [v, x] (layer_regions_place c v) := by
  unfold layer_regions_place
  split
  · cases hx
  · rename_i k rest
    split
    · exact List.Sublist.cons₂ _ (List.singleton_sublist.mpr hx)
    · rename_i hk
      have hlow : ∃ u ∈ k :: rest, u.region.layer < v.region.layer :=
        ⟨k, List.mem_cons_self _ _, not_le.mp hk⟩
      have hhigh : ¬ ∀ u ∈ k :: rest, u.region.layer ≤ v.region.layer :=
        fun h => hnot ⟨hlow, h⟩
      have hlast : ¬ v.region.layer ≥
          ((k :: rest).getLast (List.cons_ne_nil k rest)).region.layer := by
        intro hge
        apply hhigh
        intro u hu
        exact le_trans (le_getLast_of_sorted hs (List.cons_ne_nil k rest) hu) hge
      rw [if_neg hlast]
      exact layer_regions_insert_front v x (k :: rest) hx (le_of_eq heq.symm)

theorem valid_views_append (a b : List RegionView) :
    valid_views (a ++ b) = valid_views a ++ valid_views b := by
  simp [valid_views]

theorem mem_valid_views_iff {vs : List RegionView} {u : RegionView} :
    u ∈ valid_views vs ↔ ∃ w ∈ vs, w.valid = true ∧ w.enable_display true = u := by
  simp [valid_views, List.mem_map, List.mem_filter, and_assoc]

theorem valid_views_nodup (vs : List RegionView) (hn : (vs.map (fun v => v.id)).Nodup) :
    (valid_views vs).Nodup := by
  have h := List.Nodup.sublist (valid_views_ids_sublist vs) hn
  exact List.Nodup.of_map _ h

/-! ## Theorems: layer_regions -/

/-- C1: the sequence in which `layer_regions` raises the views is non-decreasing
in region layer; two valid views of the registry with `v1.layer < v2.layer` are
raised in that order and never in the other one, and (the registry holding
distinct views) `v1` ends below `v2` in the z-order of the canvas. -/
theorem layer_regions_raises_ascending (s : StreamView) :
    s.layer_regions_order.Pairwise (fun a b => a.region.layer ≤ b.region.layer) ∧
    ∀ v1 ∈ s.region_views, ∀ v2 ∈ s.region_views,
      v1.valid = true → v2.valid = true → v1.region.layer < v2.region.layer →
      List.Sublist [v1.enable_display true, v2.enable_display true] s.layer_regions_order ∧
      ¬ List.Sublist [v2.enable_display true, v1.enable_display true] s.layer_regions_order ∧
      ((s.region_views.map (fun v => v.id)).Nodup →
        List.Sublist [v1.id, v2.id] s.layer_regions.canvas_children ∧
        ¬ List.Sublist [v2.id, v1.id] s.layer_regions.canvas_children) := by
  refine ⟨layer_regions_order_sorted s, ?_⟩
  intro v1 h1 v2 h2 hv1 hv2 hlt
  have hlt2 : (v1.enable_display true).region.layer < (v2.enable_display true).region.layer := hlt
  have hm1 : v1.enable_display true ∈ s.layer_regions_order :=
    (layer_regions_order_perm s).mem_iff.mpr (mem_valid_views h1 hv1)
  have hm2 : v2.enable_display true ∈ s.layer_regions_order :=
    (layer_regions_order_perm s).mem_iff.mpr (mem_valid_views h2 hv2)
  have hsub := sublist_pair_of_layer_lt (layer_regions_order_sorted s) hm1 hm2 hlt2
  refine ⟨hsub, not_sublist_pair_of_layer_lt (layer_regions_order_sorted s) hlt2, ?_⟩
  intro hn
  have hids : (s.layer_regions_order.map (fun v => v.id)).Nodup :=
    ((layer_regions_order_perm s).map _).nodup_iff.mpr
      (List.Nodup.sublist (valid_views_ids_sublist s.region_views) hn)
  have hz : s.layer_regions.canvas_children =
      (layer_regions_scan s.region_views [] [] s.canvas_children).2.2.filter
          (fun x => decide (x ∉ s.layer_regions_order.map (fun v => v.id)))
        ++ s.layer_regions_order.map (fun v => v.id) := by
    show raise_all (s.layer_regions_order.map (fun v => v.id))
      (layer_regions_scan s.region_views [] [] s.canvas_children).2.2 = _
    rw [raise_all_eq, raise_all_nil_of_nodup _ hids]
  have hsubid : List.Sublist [v1.id, v2.id] (s.layer_regions_order.map (fun v => v.id)) :=
    List.Sublist.map (fun v : RegionView => v.id) hsub
  rw [hz]
  refine ⟨hsubid.trans (List.sublist_append_right _ _), ?_⟩
  intro hrev
  have hnot : v2.id ∉ (layer_regions_scan s.region_views [] [] s.canvas_children).2.2.filter
      (fun x => decide (x ∉ s.layer_regions_order.map (fun v => v.id))) := by
    intro hmem
    have := (List.mem_filter.mp hmem).2
    simp only [decide_eq_true_eq] at this
    exact this (hsubid.subset (by simp))
  exact nodup_pair_not_swapped hids hsubid (sublist_pair_of_append hnot hrev)

/-- Witness of C1 on a registry of three views, one of them invalid. -/
theorem layer_regions_raises_ascending_witness :
    List.Sublist [(sample_view 3 0 true).enable_display true,
        (sample_view 1 2 true).enable_display true]
      (sample_stream LayerDisplay.Overlaid 3
        [sample_view 1 2 true, sample_view 2 1 false, sample_view 3 0 true]).layer_regions_order ∧
    List.Sublist [3, 1]
      (sample_stream LayerDisplay.Overlaid 3
        [sample_view 1 2 true, sample_view 2 1 false,
          sample_view 3 0 true]).layer_regions.canvas_children :=
  have h := (layer_regions_raises_ascending
    (sample_stream LayerDisplay.Overlaid 3
      [sample_view 1 2 true, sample_view 2 1 false, sample_view 3 0 true])).2
    (sample_view 3 0 true) (by decide) (sample_view 1 2 true) (by decide)
    (by decide) (by decide) (by decide)
  ⟨h.1, (h.2.2 (by decide)).1⟩

/-- Counterexample to C2 as stated: two valid views of equal layer, view 1 before
view 2 in the registry; `layer_regions` raises view 2 first and view 1 ends on
top. -/
theorem layer_regions_equal_layer_not_stable :
    List.Sublist [sample_view 1 0 true, sample_view 2 0 true]
      (sample_stream LayerDisplay.Overlaid 1
        [sample_view 1 0 true, sample_view 2 0 true]).region_views ∧
    (sample_view 1 0 true).region.layer = (sample_view 2 0 true).region.layer ∧
    (sample_stream LayerDisplay.Overlaid 1
        [sample_view 1 0 true, sample_view 2 0 true]).layer_regions_order =
      [(sample_view 2 0 true).enable_display true, (sample_view 1 0 true).enable_display true] ∧
    ¬ List.Sublist [(sample_view 1 0 true).enable_display true,
        (sample_view 2 0 true).enable_display true]
      (sample_stream LayerDisplay.Overlaid 1
        [sample_view 1 0 true, sample_view 2 0 true]).layer_regions_order ∧
    (sample_stream LayerDisplay.Overlaid 1
        [sample_view 1 0 true, sample_view 2 0 true]).layer_regions.canvas_children = [2, 1] := by
  decide

/-- C3: `layer_regions` is idempotent: a second run changes neither the
registry nor the z-order nor anything else of the state. -/
theorem layer_regions_idempotent (s : StreamView) :
    s.layer_regions.layer_regions = s.layer_regions := by
  have h2 : ∀ t : StreamView, t.layer_regions =
      { t with
        region_views := valid_views t.region_views
        canvas_children := raise_all
          (((valid_views t.region_views).foldl layer_regions_place []).map (fun v => v.id))
          (layer_regions_scan t.region_views [] [] t.canvas_children).2.2 } := by
    intro t
    simp [StreamView.layer_regions, (layer_regions_scan_eq _ _ _ _).1,
      (layer_regions_scan_eq _ _ _ _).2]
  have h1 : s.layer_regions.region_views = valid_views s.region_views := by
    rw [h2 s]
  rw [h2 s.layer_regions, h1, valid_views_idem,
    layer_regions_scan_canvas _ _ _ _ (valid_views_valid s.region_views)]
  rw [h2 s]
  simp only [raise_all_idem]

/-- C2 (amended): for two valid views of equal layer, `v1` before `v2` in the
registry, `layer_regions` raises `v1` before `v2` when among the valid views
before `v2` one has a strictly lower layer and none has a strictly higher one
(`v2` is appended at the back); otherwise `v2` is put in front of the views of
its layer and is raised before `v1`. -/
theorem layer_regions_equal_layer_order (s : StreamView) (pre post : List RegionView)
    (v1 v2 : RegionView) (hs : s.region_views = pre ++ v2 :: post) (h1 : v1 ∈ pre)
    (hv1 : v1.valid = true) (hv2 : v2.valid = true)
    (heq : v1.region.layer = v2.region.layer) :
    (((∃ u ∈ pre, u.valid = true ∧ u.region.layer < v2.region.layer) ∧
        (∀ u ∈ pre, u.valid = true → u.region.layer ≤ v2.region.layer)) →
      List.Sublist [v1.enable_display true, v2.enable_display true] s.layer_regions_order ∧
      ((s.region_views.map (fun v => v.id)).Nodup →
        ¬ List.Sublist [v2.enable_display true, v1.enable_display true]
          s.layer_regions_order)) ∧
    (¬ ((∃ u ∈ pre, u.valid = true ∧ u.region.layer < v2.region.layer) ∧
        (∀ u ∈ pre, u.valid = true → u.region.layer ≤ v2.region.layer)) →
      List.Sublist [v2.enable_display true, v1.enable_display true] s.layer_regions_order ∧
      ((s.region_views.map (fun v => v.id)).Nodup →
        ¬ List.Sublist [v1.enable_display true, v2.enable_display true]
          s.layer_regions_order)) := by
  have hnd : (s.region_views.map (fun v => v.id)).Nodup → s.layer_regions_order.Nodup :=
    fun hn => (layer_regions_order_perm s).nodup_iff.mpr (valid_views_nodup _ hn)
  have hc : LayerSorted ((valid_views pre).foldl layer_regions_place []) :=
    layer_regions_fold_sorted _ _ List.Pairwise.nil
  have hmem : ∀ u, u ∈ (valid_views pre).foldl layer_regions_place [] ↔
      ∃ w ∈ pre, w.valid = true ∧ w.enable_display true = u := by
    intro u
    have hp := layer_regions_fold_perm (valid_views pre) []
    rw [List.nil_append] at hp
    rw [hp.mem_iff, mem_valid_views_iff]
  have hx : v1.enable_display true ∈ (valid_views pre).foldl layer_regions_place [] :=
    (hmem _).mpr ⟨v1, h1, hv1, rfl⟩
  have hord : s.layer_regions_order =
      (valid_views post).foldl layer_regions_place
        (layer_regions_place ((valid_views pre).foldl layer_regions_place [])
          (v2.enable_display true)) := by
    rw [layer_regions_order_eq, hs, valid_views_append, List.foldl_append]
    have : valid_views (v2 :: post) = v2.enable_display true :: valid_views post := by
      simp [valid_views, hv2]
    rw [this, List.foldl_cons]
  have hlow_iff : (∃ u ∈ (valid_views pre).foldl layer_regions_place [],
        u.region.layer < (v2.enable_display true).region.layer) ↔
      ∃ u ∈ pre, u.valid = true ∧ u.region.layer < v2.region.layer := by
    constructor
    · rintro ⟨u, hu, hlt⟩
      obtain ⟨w, hw, hwv, rfl⟩ := (hmem u).mp hu
      exact ⟨w, hw, hwv, hlt⟩
    · rintro ⟨w, hw, hwv, hlt⟩
      exact ⟨w.enable_display true, (hmem _).mpr ⟨w, hw, hwv, rfl⟩, hlt⟩
  have hhigh_iff : (∀ u ∈ (valid_views pre).foldl layer_regions_place [],
        u.region.layer ≤ (v2.enable_display true).region.layer) ↔
      ∀ u ∈ pre, u.valid = true → u.region.layer ≤ v2.region.layer := by
    constructor
    · intro h w hw hwv
      exact h (w.enable_display true) ((hmem _).mpr ⟨w, hw, hwv, rfl⟩)
    · intro h u hu
      obtain ⟨w, hw, hwv, rfl⟩ := (hmem u).mp hu
      exact h w hw hwv
  constructor
  · intro hcond
    have hsub : List.Sublist [v1.enable_display true, v2.enable_display true]
        s.layer_regions_order := by
      rw [hord]
      exact (layer_regions_place_equal_back _ _ _ hc hx (hlow_iff.mpr hcond.1)
        (hhigh_iff.mpr hcond.2)).trans (layer_regions_fold_sublist _ _)
    exact ⟨hsub, fun hn => nodup_pair_not_swapped (hnd hn) hsub⟩
  · intro hcond
    have hsub : List.Sublist [v2.enable_display true, v1.enable_display true]
        s.layer_regions_order := by
      rw [hord]
      have hfront := layer_regions_place_equal_front _ (v2.enable_display true)
        (v1.enable_display true) hc hx heq (by rw [hlow_iff, hhigh_iff]; exact hcond)
      exact hfront.trans (layer_regions_fold_sublist _ _)
    exact ⟨hsub, fun hn => nodup_pair_not_swapped (hnd hn) hsub⟩

/-- Witness of the amended C2: views 2 and 3 share layer 1 above view 1 of layer
0, and view 2 is raised before view 3. -/
theorem layer_regions_equal_layer_order_witness :
    List.Sublist [(sample_view 2 1 true).enable_display true,
        (sample_view 3 1 true).enable_display true]
      (sample_stream LayerDisplay.Overlaid 2
        [sample_view 1 0 true, sample_view 2 1 true, sample_view 3 1 true]).layer_regions_order :=
  ((layer_regions_equal_layer_order
    (sample_stream LayerDisplay.Overlaid 2
      [sample_view 1 0 true, sample_view 2 1 true, sample_view 3 1 true])
    [sample_view 1 0 true, sample_view 2 1 true] [] (sample_view 2 1 true) (sample_view 3 1 true)
    (by decide) (by decide) (by decide) (by decide) (by decide)).1 (by decide)).1

/-! ## Lemmas on double rounding -/

theorem round_half_even_of_near (q : ℚ) (m : ℤ) (h : |q - (m : ℚ)| < 1 / 2) :
    round_half_even q = m := by
  have h1 := abs_lt.mp h
  unfold round_half_even
  by_cases hq : (m : ℚ) ≤ q
  · have hf : ⌊q⌋ = m := Int.floor_eq_iff.mpr ⟨hq, by linarith [h1.2]⟩
    rw [hf, if_pos (by linarith [h1.2])]
  · have hf : ⌊q⌋ = m - 1 :=
      Int.floor_eq_iff.mpr ⟨by push_cast; linarith [h1.1], by push_cast; linarith⟩
    rw [hf]
    have h2 : ¬ (q - ((m - 1 : ℤ) : ℚ) < 1 / 2) := by push_cast; linarith [h1.1]
    have h3 : 1 / 2 < q - ((m - 1 : ℤ) : ℚ) := by push_cast; linarith [h1.1]
    rw [if_neg h2, if_pos h3]
    ring

theorem round_half_even_of_tie_down (q : ℚ) (m : ℤ) (h : q = (m : ℚ) + 1 / 2)
    (hm : m % 2 = 0) : round_half_even q = m := by
  have hf : ⌊q⌋ = m := Int.floor_eq_iff.mpr ⟨by linarith, by linarith⟩
  unfold round_half_even
  rw [hf]
  have h2 : ¬ (q - (m : ℚ) < 1 / 2) := by linarith
  have h3 : ¬ (1 / 2 < q - (m : ℚ)) := by linarith
  rw [if_neg h2, if_neg h3, if_pos hm]

theorem floor_le_round_half_even (q : ℚ) : ⌊q⌋ ≤ round_half_even q := by
  unfold round_half_even
  split
  · exact le_refl _
  · split
    · omega
    · split
      · exact le_refl _
      · omega

theorem log_two_eq (x : ℚ) (e : ℤ) (h1 : (2 : ℚ) ^ e ≤ x) (h2 : x < (2 : ℚ) ^ (e + 1)) :
    Int.log 2 x = e := by
  have hx : 0 < x := lt_of_lt_of_le (zpow_pos (by norm_num) e) h1
  have ha : e ≤ Int.log 2 x :=
    (Int.zpow_le_iff_le_log (by norm_num) hx).mp (by exact_mod_cast h1)
  have hb : Int.log 2 x < e + 1 :=
    (Int.lt_zpow_iff_log_lt (by norm_num) hx).mp (by exact_mod_cast h2)
  omega

theorem round_double_zero : round_double 0 = 0 := by
  simp [round_double]

theorem round_double_eq (x : ℚ) (e m : ℤ) (h1 : (2 : ℚ) ^ e ≤ |x|)
    (h2 : |x| < (2 : ℚ) ^ (e + 1))
    (hm : round_half_even (x * (2 : ℚ) ^ (52 - e)) = m) :
    round_double x = (m : ℚ) * (2 : ℚ) ^ (e - 52) := by
  have hx : x ≠ 0 := by
    intro h0
    rw [h0, abs_zero] at h1
    exact absurd h1 (not_le.mpr (zpow_pos (by norm_num) e))
  unfold round_double
  rw [if_neg hx, log_two_eq |x| e h1 h2, hm]

/-- A value with at most 53 significant bits is not rounded. -/
theorem round_double_exact (x : ℚ) (e m : ℤ) (h1 : (2 : ℚ) ^ e ≤ |x|)
    (h2 : |x| < (2 : ℚ) ^ (e + 1)) (hm : x * (2 : ℚ) ^ (52 - e) = (m : ℚ)) :
    round_double x = x := by
  rw [round_double_eq x e m h1 h2 (round_half_even_of_near _ _ (by rw [hm]; norm_num)), ← hm,
    mul_assoc, ← zpow_add₀ (by norm_num : (2 : ℚ) ≠ 0)]
  norm_num

theorem round_double_pos (x : ℚ) (hx : 0 < x) : 0 < round_double x := by
  unfold round_double
  rw [if_neg (ne_of_gt hx), abs_of_pos hx]
  have hlog : (2 : ℚ) ^ (Int.log 2 x) ≤ x := by
    have h := Int.zpow_log_le_self (b := 2) (r := x) (by norm_num) hx
    exact_mod_cast h
  have hq : (1 : ℚ) ≤ x * (2 : ℚ) ^ (52 - Int.log 2 x) := by
    have hp : (0 : ℚ) < (2 : ℚ) ^ (52 - Int.log 2 x) := zpow_pos (by norm_num) _
    calc (1 : ℚ) ≤ (2 : ℚ) ^ (52 : ℤ) := by norm_num
      _ = (2 : ℚ) ^ (Int.log 2 x) * (2 : ℚ) ^ (52 - Int.log 2 x) := by
          rw [← zpow_add₀ (by norm_num : (2 : ℚ) ≠ 0)]
          congr 1
          ring
      _ ≤ x * (2 : ℚ) ^ (52 - Int.log 2 x) := mul_le_mul_of_nonneg_right hlog (le_of_lt hp)
  have hfl : (1 : ℤ) ≤ ⌊x * (2 : ℚ) ^ (52 - Int.log 2 x)⌋ :=
    Int.le_floor.mpr (by exact_mod_cast hq)
  have hr : (1 : ℤ) ≤ round_half_even (x * (2 : ℚ) ^ (52 - Int.log 2 x)) :=
    le_trans hfl (floor_le_round_half_even _)
  have hr2 : (0 : ℚ) < (round_half_even (x * (2 : ℚ) ^ (52 - Int.log 2 x)) : ℚ) := by
    exact_mod_cast hr
  exact mul_pos hr2 (zpow_pos (by norm_num) _)

theorem round_double_twenty_five : round_double (25) = 25 :=
  round_double_exact (25) (4) (7036874417766400) (by norm_num [abs_of_pos])
    (by norm_num [abs_of_pos]) (by norm_num)

theorem round_double_fifty : round_double (50) = 50 :=
  round_double_exact (50) (5) (7036874417766400) (by norm_num [abs_of_pos])
    (by norm_num [abs_of_pos]) (by norm_num)

theorem round_double_seventy_five : round_double (75) = 75 :=
  round_double_exact (75) (6) (5277655813324800) (by norm_num [abs_of_pos])
    (by norm_num [abs_of_pos]) (by norm_num)

theorem round_double_hundred : round_double (100) = 100 :=
  round_double_exact (100) (6) (7036874417766400) (by norm_num [abs_of_pos])
    (by norm_num [abs_of_pos]) (by norm_num)

theorem update_contents_height_views (s : StreamView) :
    s.update_contents_height.region_views =
      s.region_views.map (update_view_height s._layer_display s.height s.child_height) := rfl

/-- C4 (amended): in Stacked mode with `_layers = L ≥ 1` and lane height `H`,
`update_contents_height` keeps the views and their regions and gives every view
the height the `double` division `H/L` yields and the offset the `double`
computation `H - (k+1)*h` yields (`k+1` in `layer_t`). When the division is
exact the height is `H/L`; for a view at layer `k` below the maximum of
`layer_t` (`k + 1 < 2^32`) whose product and difference are exact too, the
offset is `H - (k+1)*H/L = (L-1-k)*(H/L)` and, for `k < L`, the band
`[y, y + height]` lies inside `[0, H]`; the bands `[y, y + height)` of two such
views at different layers are disjoint. -/
theorem update_contents_height_stacked (s : StreamView)
    (hd : s._layer_display = LayerDisplay.Stacked) (hL : 1 ≤ s._layers) :
    s.update_contents_height.region_views.map (fun v => (v.id, v.region)) =
      s.region_views.map (fun v => (v.id, v.region)) ∧
    (∀ v ∈ s.update_contents_height.region_views,
      v.height = round_double (s.height / (s._layers : ℚ)) ∧
      v.y = round_double (s.height -
        round_double ((((v.region.layer + 1) % UINT32_SIZE : Nat) : ℚ) *
          round_double (s.height / (s._layers : ℚ))))) ∧
    (exact_double (s.height / (s._layers : ℚ)) →
      (∀ v ∈ s.update_contents_height.region_views,
        v.height = s.height / (s._layers : ℚ) ∧
        (v.region.layer + 1 < UINT32_SIZE →
          exact_double (((v.region.layer : ℚ) + 1) * (s.height / (s._layers : ℚ))) →
          exact_double
            (s.height - ((v.region.layer : ℚ) + 1) * (s.height / (s._layers : ℚ))) →
          v.y = s.height - ((v.region.layer : ℚ) + 1) * (s.height / (s._layers : ℚ)) ∧
          v.y = ((s._layers : ℚ) - 1 - (v.region.layer : ℚ)) * (s.height / (s._layers : ℚ)) ∧
          (v.region.layer < s._layers →
            ∀ t : ℚ, v.y ≤ t → t ≤ v.y + v.height → 0 ≤ t ∧ t ≤ s.height))) ∧
      (∀ v ∈ s.update_contents_height.region_views,
        ∀ w ∈ s.update_contents_height.region_views,
        v.region.layer ≠ w.region.layer →
        v.region.layer + 1 < UINT32_SIZE → w.region.layer + 1 < UINT32_SIZE →
        exact_double (((v.region.layer : ℚ) + 1) * (s.height / (s._layers : ℚ))) →
        exact_double
          (s.height - ((v.region.layer : ℚ) + 1) * (s.height / (s._layers : ℚ))) →
        exact_double (((w.region.layer : ℚ) + 1) * (s.height / (s._layers : ℚ))) →
        exact_double
          (s.height - ((w.region.layer : ℚ) + 1) * (s.height / (s._layers : ℚ))) →
        ∀ t : ℚ, ¬ ((v.y ≤ t ∧ t < v.y + v.height) ∧ (w.y ≤ t ∧ t < w.y + w.height)))) := by
  have hLq : (0 : ℚ) < (s._layers : ℚ) := by exact_mod_cast hL
  have hch : s.child_height = round_double (s.height / (s._layers : ℚ)) := by
    simp [StreamView.child_height, hd]
  have hH : s.height = (s._layers : ℚ) * (s.height / (s._layers : ℚ)) := by
    field_simp
  have hview : ∀ v ∈ s.update_contents_height.region_views,
      v.height = round_double (s.height / (s._layers : ℚ)) ∧
      v.y = round_double (s.height -
        round_double ((((v.region.layer + 1) % UINT32_SIZE : Nat) : ℚ) *
          round_double (s.height / (s._layers : ℚ)))) := by
    intro v hv
    rw [update_contents_height_views, List.mem_map] at hv
    obtain ⟨u, _, rfl⟩ := hv
    simp [update_view_height, hd, hch, RegionView.set_y, RegionView.set_height]
  refine ⟨?_, hview, ?_⟩
  · rw [update_contents_height_views, List.map_map]
    apply List.map_congr_left
    intro u _
    simp [update_view_height, hd, RegionView.set_y, RegionView.set_height]
  intro hex
  have hnowrap : ∀ v ∈ s.update_contents_height.region_views,
      v.region.layer + 1 < UINT32_SIZE →
      exact_double (((v.region.layer : ℚ) + 1) * (s.height / (s._layers : ℚ))) →
      exact_double (s.height - ((v.region.layer : ℚ) + 1) * (s.height / (s._layers : ℚ))) →
      v.y = s.height - ((v.region.layer : ℚ) + 1) * (s.height / (s._layers : ℚ)) := by
    intro v hv hlt hp hdiff
    have hcast : (((v.region.layer + 1) % UINT32_SIZE : Nat) : ℚ) = (v.region.layer : ℚ) + 1 := by
      rw [Nat.mod_eq_of_lt hlt]
      push_cast
      ring
    rw [(hview v hv).2, hcast, show round_double (s.height / (s._layers : ℚ)) = _ from hex,
      show round_double (((v.region.layer : ℚ) + 1) * (s.height / (s._layers : ℚ))) = _ from hp,
      show round_double
        (s.height - ((v.region.layer : ℚ) + 1) * (s.height / (s._layers : ℚ))) = _ from hdiff]
  have hheight : ∀ v ∈ s.update_contents_height.region_views,
      v.height = s.height / (s._layers : ℚ) := by
    intro v hv
    rw [(hview v hv).1]
    exact hex
  constructor
  · intro v hv
    refine ⟨hheight v hv, ?_⟩
    intro hlt hp hdiff
    have hy := hnowrap v hv hlt hp hdiff
    refine ⟨hy, ?_, ?_⟩
    · rw [hy]
      nth_rewrite 1 [hH]
      ring
    · intro hk t ht1 ht2
      have hkq : (v.region.layer : ℚ) + 1 ≤ (s._layers : ℚ) := by exact_mod_cast hk
      have hkq0 : (0 : ℚ) ≤ (v.region.layer : ℚ) := Nat.cast_nonneg _
      rw [hheight v hv, hy] at ht2
      rw [hy] at ht1
      generalize s.height / (s._layers : ℚ) = c at hH ht1 ht2
      have hc : 0 ≤ c := by linarith
      constructor
      · nlinarith [mul_nonneg (sub_nonneg.mpr hkq) hc]
      · nlinarith [mul_nonneg hkq0 hc]
  · intro v hv w hw hne hv32 hw32 hvp hvd hwp hwd t ht
    obtain ⟨⟨hv1, hv2⟩, ⟨hw1, hw2⟩⟩ := ht
    rw [hheight v hv, hnowrap v hv hv32 hvp hvd] at hv2
    rw [hnowrap v hv hv32 hvp hvd] at hv1
    rw [hheight w hw, hnowrap w hw hw32 hwp hwd] at hw2
    rw [hnowrap w hw hw32 hwp hwd] at hw1
    generalize s.height / (s._layers : ℚ) = c at hv1 hv2 hw1 hw2
    have hc : 0 < c := by linarith
    rcases Nat.lt_or_gt_of_ne hne with h | h
    · have hq : (v.region.layer : ℚ) + 1 ≤ (w.region.layer : ℚ) := by exact_mod_cast h
      nlinarith [mul_le_mul_of_nonneg_right hq (le_of_lt hc)]
    · have hq : (w.region.layer : ℚ) + 1 ≤ (v.region.layer : ℚ) := by exact_mod_cast h
      nlinarith [mul_le_mul_of_nonneg_right hq (le_of_lt hc)]

/-- Witness of C4 (amended): four layers in a lane of height 100 (band height 25,
no rounding); the view at layer 1 gets the offset 50. -/
theorem update_contents_height_stacked_witness :
    ({ sample_view 2 1 true with y := 50, height := 25 } : RegionView).y =
      (sample_stream LayerDisplay.Stacked 4 [sample_view 1 0 true, sample_view 2 1 true]).height -
        ((({ sample_view 2 1 true with y := 50, height := 25 } : RegionView).region.layer : ℚ) + 1) *
        ((sample_stream LayerDisplay.Stacked 4
            [sample_view 1 0 true, sample_view 2 1 true]).height /
          (((sample_stream LayerDisplay.Stacked 4
            [sample_view 1 0 true, sample_view 2 1 true])._layers : Nat) : ℚ)) :=
  (((((update_contents_height_stacked
    (sample_stream LayerDisplay.Stacked 4 [sample_view 1 0 true, sample_view 2 1 true])
    rfl (by decide)).2.2
    (by
      unfold exact_double
      norm_num [sample_stream, round_double_twenty_five])).1
    { sample_view 2 1 true with y := 50, height := 25 }
    (by
      norm_num [sample_stream, sample_view, StreamView.update_contents_height,
        update_view_height, StreamView.child_height, RegionView.set_y, RegionView.set_height,
        UINT32_SIZE, round_double_twenty_five, round_double_fifty,
        round_double_seventy_five])).2
    (by norm_num [sample_view, UINT32_SIZE])
    (by
      unfold exact_double
      norm_num [sample_stream, sample_view, round_double_fifty])
    (by
      unfold exact_double
      norm_num [sample_stream, sample_view, round_double_fifty])).1)

/-- Counterexample to C4 as stated: with three layers and lane height 100 the
`double` quotient is `4691249611844267 / 2^47`, not `100/3`, and the bands of
layers 1 and 0 overlap (the band of layer 1 ends `2^-47` after the band of
layer 0 starts); at layer `2^32 - 1` the sum `layer() + 1` wraps to 0 in
`layer_t` and the view gets the offset `H = 100`, not `H - (k+1)*H/L`. -/
theorem update_contents_height_rounds_and_wraps :
    (sample_stream LayerDisplay.Stacked 3
      [sample_view 1 0 true, sample_view 2 1 true]).update_contents_height.region_views.map
        (fun v => (v.region.layer, v.y, v.height)) =
      [(0, 2345624805922133 / 35184372088832, 4691249611844267 / 140737488355328),
       (1, 2345624805922133 / 70368744177664, 4691249611844267 / 140737488355328)] ∧
    (4691249611844267 / 140737488355328 : ℚ) ≠ 100 / 3 ∧
    ((2345624805922133 / 70368744177664 : ℚ) ≤ 2345624805922133 / 35184372088832 ∧
      (2345624805922133 / 35184372088832 : ℚ) <
        2345624805922133 / 70368744177664 + 4691249611844267 / 140737488355328) ∧
    (sample_stream LayerDisplay.Stacked 1
      [sample_view 1 4294967295 true]).update_contents_height.region_views.map (fun v => v.y)
      = [100] ∧
    (100 : ℚ) - ((4294967295 : ℚ) + 1) * (100 / 1) ≠ 100 := by
  have f1 : round_double (100 / 3) =
      4691249611844267 / 140737488355328 := by
    rw [round_double_eq (100 / 3) (5) (4691249611844267)
      (by norm_num [abs_of_pos])
      (by norm_num [abs_of_pos]) (round_half_even_of_near _ _ (by norm_num [abs_lt]))]
    norm_num
  have f2 : round_double (4691249611844267 / 140737488355328) =
      4691249611844267 / 140737488355328 := by
    rw [round_double_eq (4691249611844267 / 140737488355328) (5) (4691249611844267)
      (by norm_num [abs_of_pos])
      (by norm_num [abs_of_pos]) (round_half_even_of_near _ _ (by norm_num [abs_lt]))]
    norm_num
  have f3 : round_double (9382499223688533 / 140737488355328) =
      2345624805922133 / 35184372088832 := by
    rw [round_double_eq (9382499223688533 / 140737488355328) (6) (4691249611844266)
      (by norm_num [abs_of_pos])
      (by norm_num [abs_of_pos]) (round_half_even_of_tie_down _ _ (by norm_num) (by decide))]
    norm_num
  have f4 : round_double (4691249611844267 / 70368744177664) =
      4691249611844267 / 70368744177664 := by
    rw [round_double_eq (4691249611844267 / 70368744177664) (6) (4691249611844267)
      (by norm_num [abs_of_pos])
      (by norm_num [abs_of_pos]) (round_half_even_of_near _ _ (by norm_num [abs_lt]))]
    norm_num
  have f5 : round_double (2345624805922133 / 70368744177664) =
      2345624805922133 / 70368744177664 := by
    rw [round_double_eq (2345624805922133 / 70368744177664) (5) (4691249611844266)
      (by norm_num [abs_of_pos])
      (by norm_num [abs_of_pos]) (round_half_even_of_near _ _ (by norm_num [abs_lt]))]
    norm_num
  refine ⟨?_, by norm_num, ⟨by norm_num, by norm_num⟩, ?_, by norm_num⟩
  · norm_num [sample_stream, sample_view, StreamView.update_contents_height, update_view_height,
      StreamView.child_height, RegionView.set_y, RegionView.set_height, UINT32_SIZE,
      f1, f2, f3, f4, f5]
  · norm_num [sample_stream, sample_view, StreamView.update_contents_height, update_view_height,
      StreamView.child_height, RegionView.set_y, RegionView.set_height, UINT32_SIZE,
      round_double_zero, round_double_hundred]

/-! ## Lemmas on the layer bounds of get_selectables -/

/-- C7: in Overlaid mode `get_selectables` appends exactly the tracked views
whose coverage of `(start, end)` is not `OverlapNone`, in registry order, and
the result is the same for every `top` and `bottom`. -/
theorem get_selectables_overlaid (s : StreamView)
    (coverage : Region → Nat → Nat → OverlapType) (y0 : ℚ) (start stop : Nat)
    (top bottom : ℚ) (results : List RegionView)
    (hd : s._layer_display = LayerDisplay.Overlaid) :
    s.get_selectables coverage y0 start stop top bottom results =
      some (results ++ s.region_views.filter
        (fun v => decide (coverage v.region start stop ≠ OverlapType.OverlapNone))) ∧
    ∀ top2 bottom2 : ℚ,
      s.get_selectables coverage y0 start stop top2 bottom2 results =
        s.get_selectables coverage y0 start stop top bottom results := by
  have h : ∀ t b : ℚ, s.get_selectables coverage y0 start stop t b results =
      some (results ++ s.region_views.filter
        (fun v => decide (coverage v.region start stop ≠ OverlapType.OverlapNone))) := by
    intro t b
    have hf : s.is_selectable coverage start stop 0 0 =
        fun v => decide (coverage v.region start stop ≠ OverlapType.OverlapNone) := by
      funext v
      simp [StreamView.is_selectable, hd]
    simp [StreamView.get_selectables, StreamView.selectable_layers, hd, hf]
  exact ⟨h top bottom, fun t b => by rw [h t b, h top bottom]⟩

/-- Witness of C7: in Overlaid mode a window far outside the lane still returns
both views. -/
theorem get_selectables_overlaid_witness :
    (sample_stream LayerDisplay.Overlaid 2
      [sample_view 1 1 true, sample_view 2 0 true]).get_selectables
        coverage_all 0 0 10 5000 6000 [] =
      some ([] ++ (sample_stream LayerDisplay.Overlaid 2
        [sample_view 1 1 true, sample_view 2 0 true]).region_views.filter
          (fun v => decide (coverage_all v.region 0 10 ≠ OverlapType.OverlapNone))) :=
  (get_selectables_overlaid
    (sample_stream LayerDisplay.Overlaid 2 [sample_view 1 1 true, sample_view 2 0 true])
    coverage_all 0 0 10 5000 6000 [] rfl).1

/-! ## Theorems: set_height -/

/-- C8: `set_height h` returns -1 exactly when `h < 10` or `h > 1000` (5 and
1001 are rejected, 10 and 1000 are not), and a rejected call leaves the whole
state unchanged: lane height, background rectangle, views, recording boxes and
the count of `HeightChanged` emissions. -/
theorem set_height_rejects_out_of_range (s : StreamView) (h : ℚ) :
    ((s.set_height h).1 = -1 ↔ (h < 10 ∨ h > 1000)) ∧
    ((h < 10 ∨ h > 1000) → (s.set_height h).2 = s) ∧
    (s.set_height 5).1 = -1 ∧ (s.set_height 1001).1 = -1 ∧
    (s.set_height 10).1 ≠ -1 ∧ (s.set_height 1000).1 ≠ -1 := by
  have key : ∀ x : ℚ, ((s.set_height x).1 = -1 ↔ (x < 10 ∨ x > 1000)) := by
    intro x
    unfold StreamView.set_height
    by_cases hx : x < 10 ∨ x > 1000
    · simp [hx]
    · rw [if_neg hx]
      by_cases hy : s.canvas_rect.y2 = x
      · simp [hy, hx]
      · simp [hy, hx]
  refine ⟨key h, ?_, ?_, ?_, ?_, ?_⟩
  · intro hx
    unfold StreamView.set_height
    rw [if_pos hx]
  · exact (key 5).mpr (by norm_num)
  · exact (key 1001).mpr (by norm_num)
  · rw [Ne, key 10]; norm_num
  · rw [Ne, key 1000]; norm_num

/-- Witness of C8: height 5 is rejected and the state is unchanged. -/
theorem set_height_rejects_out_of_range_witness :
    ((sample_stream LayerDisplay.Stacked 2
      [sample_view 1 0 true, sample_view 2 1 true]).set_height 5).2 =
      sample_stream LayerDisplay.Stacked 2 [sample_view 1 0 true, sample_view 2 1 true] :=
  (set_height_rejects_out_of_range
    (sample_stream LayerDisplay.Stacked 2 [sample_view 1 0 true, sample_view 2 1 true]) 5).2.1
    (Or.inl (by norm_num))

theorem modify_back_append_singleton {α : Type} (f : α → α) (l : List α) (b : α) :
    modify_back f (l ++ [b]) = l ++ [f b] := by
  induction l with
  | nil => rfl
  | cons x xs ih =>
    cases xs with
    | nil => rfl
    | cons y ys =>
      have ih2 : modify_back f (y :: (ys ++ [b])) = y :: (ys ++ [f b]) := ih
      show x :: modify_back f (y :: (ys ++ [b])) = x :: y :: (ys ++ [f b])
      rw [ih2]

theorem update_rec_box_active (s : StreamView) (mode : TrackMode) (frame_to_pixel : Nat → ℚ)
    (capture_start E : Nat) (boxes : List RecBoxInfo) (b : RecBoxInfo)
    (hact : s.rec_active = true) (hmode : mode = TrackMode.Normal ∨ mode = TrackMode.NonLayered)
    (hrects : s.rec_rects = boxes ++ [b]) (hE : b.start ≤ E) (hE32 : E < UINT32_SIZE) :
    s.update_rec_box mode frame_to_pixel capture_start E =
      { s with rec_rects := boxes ++ [grown_rec_box frame_to_pixel b E] } := by
  have hlen : (E + UINT32_SIZE - b.start) % UINT32_SIZE = E - b.start := by
    have h1 : E + UINT32_SIZE - b.start = (E - b.start) + UINT32_SIZE := by omega
    rw [h1, Nat.add_mod_right]
    exact Nat.mod_eq_of_lt (lt_of_le_of_lt (Nat.sub_le _ _) hE32)
  unfold StreamView.update_rec_box
  have hpos : s.rec_rects.length > 0 := by simp [hrects]
  simp only [hact, hpos, decide_True, Bool.and_self, if_true]
  rw [hrects, modify_back_append_singleton]
  rcases hmode with rfl | rfl <;> simp [update_rec_rect, grown_rec_box, hlen]

/-- C10: while recording is active in Normal or NonLayered mode, a tick of
`update_rec_box` with capture end `E ≥ start` (`E` an `nframes_t`) sets the
length of the last box to `E - start` and its rectangle to
`frame_to_pixel start .. frame_to_pixel E`, and changes nothing else; three
ticks with capture end `S+10`, `S+25`, `S+40` on a box starting at `S` give the
lengths 10, 25, 40 with the right edge at the capture end. -/
theorem update_rec_box_grows (s : StreamView) (mode : TrackMode) (frame_to_pixel : Nat → ℚ)
    (capture_start E : Nat) (boxes : List RecBoxInfo) (b : RecBoxInfo)
    (hact : s.rec_active = true) (hmode : mode = TrackMode.Normal ∨ mode = TrackMode.NonLayered)
    (hrects : s.rec_rects = boxes ++ [b]) (hE : b.start ≤ E) (hE32 : E < UINT32_SIZE) :
    (s.update_rec_box mode frame_to_pixel capture_start E =
      { s with rec_rects := boxes ++ [grown_rec_box frame_to_pixel b E] }) ∧
    (grown_rec_box frame_to_pixel b E).length = E - b.start ∧
    (grown_rec_box frame_to_pixel b E).start = b.start ∧
    (grown_rec_box frame_to_pixel b E).rectangle.x1 = frame_to_pixel b.start ∧
    (grown_rec_box frame_to_pixel b E).rectangle.x2 = frame_to_pixel E ∧
    (b.start + 40 < UINT32_SIZE →
      ∀ c1 c2 c3 : Nat,
      (s.update_rec_box mode frame_to_pixel c1 (b.start + 10)).rec_rects =
        boxes ++ [grown_rec_box frame_to_pixel b (b.start + 10)] ∧
      ((s.update_rec_box mode frame_to_pixel c1 (b.start + 10)).update_rec_box
          mode frame_to_pixel c2 (b.start + 25)).rec_rects =
        boxes ++ [grown_rec_box frame_to_pixel b (b.start + 25)] ∧
      (((s.update_rec_box mode frame_to_pixel c1 (b.start + 10)).update_rec_box
          mode frame_to_pixel c2 (b.start + 25)).update_rec_box
          mode frame_to_pixel c3 (b.start + 40)).rec_rects =
        boxes ++ [grown_rec_box frame_to_pixel b (b.start + 40)] ∧
      (grown_rec_box frame_to_pixel b (b.start + 10)).length = 10 ∧
      (grown_rec_box frame_to_pixel b (b.start + 25)).length = 25 ∧
      (grown_rec_box frame_to_pixel b (b.start + 40)).length = 40 ∧
      (grown_rec_box frame_to_pixel b (b.start + 10)).rectangle.x2 =
        frame_to_pixel (b.start + 10) ∧
      (grown_rec_box frame_to_pixel b (b.start + 25)).rectangle.x2 =
        frame_to_pixel (b.start + 25) ∧
      (grown_rec_box frame_to_pixel b (b.start + 40)).rectangle.x2 =
        frame_to_pixel (b.start + 40)) := by
  refine ⟨update_rec_box_active s mode frame_to_pixel capture_start E boxes b hact hmode hrects
    hE hE32, rfl, rfl, rfl, rfl, ?_⟩
  intro h40 c1 c2 c3
  have t1 := update_rec_box_active s mode frame_to_pixel c1 (b.start + 10) boxes b hact hmode
    hrects (by omega) (by omega)
  have t2 := update_rec_box_active (s.update_rec_box mode frame_to_pixel c1 (b.start + 10)) mode
    frame_to_pixel c2 (b.start + 25) boxes (grown_rec_box frame_to_pixel b (b.start + 10))
    (by rw [t1]; exact hact) hmode (by rw [t1]) (by simp [grown_rec_box]) (by omega)
  have t3 := update_rec_box_active
    ((s.update_rec_box mode frame_to_pixel c1 (b.start + 10)).update_rec_box mode frame_to_pixel
      c2 (b.start + 25)) mode
    frame_to_pixel c3 (b.start + 40) boxes
    (grown_rec_box frame_to_pixel (grown_rec_box frame_to_pixel b (b.start + 10)) (b.start + 25))
    (by rw [t2, t1]; exact hact) hmode (by rw [t2]) (by simp [grown_rec_box]) (by omega)
  refine ⟨?_, ?_, ?_, ?_, ?_, ?_, rfl, rfl, rfl⟩
  · rw [t1]
  · rw [t2]; simp [grown_rec_box]
  · rw [t3]; simp [grown_rec_box]
  · simp [grown_rec_box]
  · simp [grown_rec_box]
  · simp [grown_rec_box]

/-- Witness of C10: a Normal-mode tick with capture end 1010 on the box starting
at frame 1000. -/
theorem update_rec_box_grows_witness :
    sample_recording.update_rec_box TrackMode.Normal sample_frame_to_pixel 1000 1010 =
      { sample_recording with
        rec_rects := [] ++ [grown_rec_box sample_frame_to_pixel
          { rectangle := { x1 := 500, y1 := 1, x2 := 500, y2 := 99 },
            start := 1000, length := 0 } 1010] } :=
  (update_rec_box_grows sample_recording TrackMode.Normal sample_frame_to_pixel 1000 1010 []
    { rectangle := { x1 := 500, y1 := 1, x2 := 500, y2 := 99 }, start := 1000, length := 0 }
    rfl (Or.inl rfl) rfl (by decide) (by norm_num [UINT32_SIZE])).1

theorem modify_back_length {α : Type} (f : α → α) (l : List α) :
    (modify_back f l).length = l.length := by
  rcases List.eq_nil_or_concat l with rfl | ⟨L, b, rfl⟩
  · rfl
  · rw [List.concat_eq_append, modify_back_append_singleton]
    simp

theorem modify_back_dropLast {α : Type} (f : α → α) (l : List α) :
    (modify_back f l).dropLast = l.dropLast := by
  rcases List.eq_nil_or_concat l with rfl | ⟨L, b, rfl⟩
  · rfl
  · rw [List.concat_eq_append, modify_back_append_singleton]
    simp

/-- C11: while recording is active in Destructive mode, a tick of
`update_rec_box` sets the length of the last box to 2, whatever the capture
start and the capture end are, and its rectangle to
`frame_to_pixel capture_start .. frame_to_pixel capture_end`; the start of the
box and the other boxes are kept. -/
theorem update_rec_box_destructive (s : StreamView) (frame_to_pixel : Nat → ℚ)
    (capture_start capture_end : Nat) (boxes : List RecBoxInfo) (b : RecBoxInfo)
    (hact : s.rec_active = true) (hrects : s.rec_rects = boxes ++ [b]) :
    ∃ b2 : RecBoxInfo,
      (s.update_rec_box TrackMode.Destructive frame_to_pixel capture_start capture_end).rec_rects
        = boxes ++ [b2] ∧
      b2.length = 2 ∧
      b2.rectangle.x1 = frame_to_pixel capture_start ∧
      b2.rectangle.x2 = frame_to_pixel capture_end ∧
      b2.start = b.start := by
  refine ⟨update_rec_rect TrackMode.Destructive frame_to_pixel capture_start capture_end b,
    ?_, rfl, rfl, rfl, rfl⟩
  unfold StreamView.update_rec_box
  have hpos : s.rec_rects.length > 0 := by simp [hrects]
  simp only [hact, hpos, decide_True, Bool.and_self, if_true]
  rw [hrects, modify_back_append_singleton]

/-- Witness of C11: a Destructive tick on the box starting at frame 1000, with
capture start 1200 and capture end 1500. -/
theorem update_rec_box_destructive_witness :
    ∃ b2 : RecBoxInfo,
      (sample_recording.update_rec_box TrackMode.Destructive sample_frame_to_pixel
        1200 1500).rec_rects = [] ++ [b2] ∧
      b2.length = 2 ∧
      b2.rectangle.x1 = sample_frame_to_pixel 1200 ∧
      b2.rectangle.x2 = sample_frame_to_pixel 1500 ∧
      b2.start = ({ rectangle := { x1 := 500, y1 := 1, x2 := 500, y2 := 99 },
                    start := 1000, length := 0 } : RecBoxInfo).start :=
  update_rec_box_destructive sample_recording sample_frame_to_pixel 1200 1500 []
    { rectangle := { x1 := 500, y1 := 1, x2 := 500, y2 := 99 }, start := 1000, length := 0 }
    rfl rfl

/-- C12: `update_rec_box` never adds or removes a box, leaves every box but the
last one unchanged, touches nothing but the box list, and changes nothing at
all when recording is not active or there is no box; in particular a tick after
`transport_looped` changes nothing. -/
theorem update_rec_box_frame (s : StreamView) (mode : TrackMode) (frame_to_pixel : Nat → ℚ)
    (capture_start capture_end : Nat) :
    (s.update_rec_box mode frame_to_pixel capture_start capture_end).rec_rects.length =
      s.rec_rects.length ∧
    (s.update_rec_box mode frame_to_pixel capture_start capture_end).rec_rects.dropLast =
      s.rec_rects.dropLast ∧
    { s.update_rec_box mode frame_to_pixel capture_start capture_end with
      rec_rects := s.rec_rects } = s ∧
    (s.rec_active = false ∨ s.rec_rects = [] →
      s.update_rec_box mode frame_to_pixel capture_start capture_end = s) ∧
    s.transport_looped.update_rec_box mode frame_to_pixel capture_start capture_end =
      s.transport_looped := by
  refine ⟨?_, ?_, ?_, ?_, ?_⟩
  · unfold StreamView.update_rec_box
    split
    · exact modify_back_length _ _
    · rfl
  · unfold StreamView.update_rec_box
    split
    · exact modify_back_dropLast _ _
    · rfl
  · unfold StreamView.update_rec_box
    split <;> rfl
  · intro h
    unfold StreamView.update_rec_box
    rcases h with h | h
    · simp [h]
    · simp [h]
  · simp [StreamView.update_rec_box, StreamView.transport_looped]

/-- Witness of C12: a tick on a stream view that is not recording. -/
theorem update_rec_box_frame_witness :
    (sample_stream LayerDisplay.Overlaid 1 []).update_rec_box TrackMode.Normal
      sample_frame_to_pixel 0 10 = sample_stream LayerDisplay.Overlaid 1 [] :=
  (update_rec_box_frame (sample_stream LayerDisplay.Overlaid 1 []) TrackMode.Normal
    sample_frame_to_pixel 0 10).2.2.2.1 (Or.inl rfl)

/-! ## Theorems: playlist_layered -/

theorem update_coverage_frames_ids (s : StreamView) :
    s.update_coverage_frames.region_views.map (fun v => (v.id, v.region)) =
      s.region_views.map (fun v => (v.id, v.region)) := by
  simp [StreamView.update_coverage_frames, List.map_map, Function.comp_def,
    RegionView.update_coverage_frames]

theorem update_contents_height_ids (s : StreamView) :
    s.update_contents_height.region_views.map (fun v => (v.id, v.region)) =
      s.region_views.map (fun v => (v.id, v.region)) := by
  rw [update_contents_height_views, List.map_map]
  apply List.map_congr_left
  intro u _
  cases hdm : s._layer_display <;>
    simp [update_view_height, RegionView.set_y, RegionView.set_height]

/-- The layer count after a `playlist_layered` notification for the diskstream
`ds`. -/
theorem playlist_layered_eq (s : StreamView) (ds : Diskstream) :
    ∃ n : Nat,
      (∀ pl, ds.playlist = some pl → n = (pl.top_layer + 1) % UINT32_SIZE) ∧
      (ds.playlist = none → n = s._layers) ∧
      s.playlist_layered (some ds) =
        if s._layer_display = LayerDisplay.Stacked then
          ({ s with _layers := n } : StreamView).update_contents_height.update_coverage_frames
        else ({ s with _layers := n } : StreamView).layer_regions := by
  rcases ds with ⟨_ | pl⟩
  · refine ⟨s._layers, ?_, fun _ => rfl, rfl⟩
    intro pl h
    cases h
  · refine ⟨(pl.top_layer + 1) % UINT32_SIZE, ?_, ?_, rfl⟩
    · intro q h
      cases h
      rfl
    · intro h
      cases h

/-- Counterexample to C13 as stated: in Stacked mode, with the view of layer 1
below the view of layer 0 on the canvas, `playlist_layered` leaves the z-order
as it is, where `layer_regions` would put the view of layer 0 below. -/
theorem playlist_layered_stacked_keeps_z_order :
    ((sample_stream LayerDisplay.Stacked 2
        [sample_view 1 1 true, sample_view 2 0 true]).playlist_layered
      (some { playlist := some { top_layer := 1 } })).canvas_children = [1, 2] ∧
    (sample_stream LayerDisplay.Stacked 2
        [sample_view 1 1 true, sample_view 2 0 true]).layer_regions.canvas_children = [2, 1] := by
  constructor
  · rfl
  · decide

/-- C13 (amended): on `playlist_layered` for a diskstream that still exists the
layer count becomes `top_layer + 1` (in `layer_t`; unchanged without a
playlist). In Overlaid mode the rest of the state is what `layer_regions`
makes of it: invalid views purged, views raised in ascending layer order. In
Stacked mode `layer_regions` is not run: every view gets its stacked height
and offset and the Stacked coverage frames, the bottom edge of every recording
box is set, and nothing else changes: the z-order of the canvas, the registry
with its invalid views, the selection and validity flags stay as they are. -/
theorem playlist_layered_relayers (s : StreamView) (ds : Diskstream) :
    ∃ n : Nat,
      (∀ pl, ds.playlist = some pl → n = (pl.top_layer + 1) % UINT32_SIZE) ∧
      (ds.playlist = none → n = s._layers) ∧
      (s._layer_display = LayerDisplay.Overlaid →
        s.playlist_layered (some ds) = { s.layer_regions with _layers := n }) ∧
      (s._layer_display = LayerDisplay.Stacked →
        s.playlist_layered (some ds) =
          { s with
            _layers := n
            region_views := s.region_views.map (fun v =>
              { v with
                y := round_double (s.height - round_double
                  ((((v.region.layer + 1) % UINT32_SIZE : Nat) : ℚ) *
                    round_double (s.height / (n : ℚ))))
                height := round_double (s.height / (n : ℚ))
                coverage_display := LayerDisplay.Stacked })
            rec_rects := s.rec_rects.map (fun b =>
              { b with rectangle := { b.rectangle with y2 := round_double (s.height - 1) } }) })
    := by
  obtain ⟨n, h1, h2, he⟩ := playlist_layered_eq s ds
  refine ⟨n, h1, h2, ?_, ?_⟩
  · intro hd
    rw [he, if_neg (by rw [hd]; decide)]
    rfl
  · intro hd
    rw [he, if_pos hd]
    simp [StreamView.update_coverage_frames, StreamView.update_contents_height,
      StreamView.child_height, hd, update_view_height, RegionView.set_y, RegionView.set_height,
      RegionView.update_coverage_frames, List.map_map, Function.comp_def]

/-- Witness of C13 (amended): in Overlaid mode the notification re-applies the
z-order of `layer_regions`. -/
theorem playlist_layered_relayers_witness :
    ((sample_stream LayerDisplay.Overlaid 2
        [sample_view 1 1 true, sample_view 2 0 true]).playlist_layered
      (some { playlist := some { top_layer := 1 } })).canvas_children =
      (sample_stream LayerDisplay.Overlaid 2
        [sample_view 1 1 true, sample_view 2 0 true]).layer_regions.canvas_children :=
  match playlist_layered_relayers
    (sample_stream LayerDisplay.Overlaid 2 [sample_view 1 1 true, sample_view 2 0 true])
    { playlist := some { top_layer := 1 } } with
  | ⟨_, _, _, ho, _⟩ => (congrArg StreamView.canvas_children (ho rfl)).trans rfl

/-! ## Theorems: set_samples_per_unit -/

/-- Counterexample to C14 as stated: for a box starting at frame `2^32 - 1` with
length 2 the sum `start + length` wraps in `nframes_t`, and the right edge is
set to `frame_to_pixel 1`, not to `frame_to_pixel (start + length)`. -/
theorem set_samples_per_unit_wraps :
    (late_recording.set_samples_per_unit sample_frame_to_pixel 1).2.rec_rects.map
      (fun b => b.rectangle.x2) = [sample_frame_to_pixel 1] ∧
    late_recording.rec_rects.map (fun b => sample_frame_to_pixel (b.start + b.length)) =
      [sample_frame_to_pixel 4294967297] ∧
    sample_frame_to_pixel 1 ≠ sample_frame_to_pixel 4294967297 := by
  refine ⟨?_, ?_, ?_⟩
  · norm_num [StreamView.set_samples_per_unit, late_recording, sample_stream,
      StreamView.update_coverage_frames, reproject_rec_rect, UINT32_SIZE]
  · simp [late_recording]
  · norm_num [sample_frame_to_pixel]

/-- C14 (amended): `set_samples_per_unit spp` returns -1 exactly when `spp < 1`
(1/2 is rejected, 1 is accepted) and then leaves the state unchanged; when it
accepts, the stored scale is `spp`, the views are kept and each is given `spp`,
every recording box keeps its start and length and its rectangle is set to
`frame_to_pixel start .. frame_to_pixel (start + length)`, the sum being
computed in `nframes_t`: it is `start + length` when that is below `2^32`. -/
theorem set_samples_per_unit_spec (s : StreamView) (frame_to_pixel : Nat → ℚ) (spp : ℚ) :
    ((s.set_samples_per_unit frame_to_pixel spp).1 = -1 ↔ spp < 1) ∧
    (s.set_samples_per_unit frame_to_pixel (1 / 2)).1 = -1 ∧
    (s.set_samples_per_unit frame_to_pixel 1).1 = 0 ∧
    (spp < 1 → (s.set_samples_per_unit frame_to_pixel spp).2 = s) ∧
    (¬ spp < 1 →
      (s.set_samples_per_unit frame_to_pixel spp).1 = 0 ∧
      (s.set_samples_per_unit frame_to_pixel spp).2._samples_per_unit = spp ∧
      (s.set_samples_per_unit frame_to_pixel spp).2.region_views.map
          (fun v => (v.id, v.region)) = s.region_views.map (fun v => (v.id, v.region)) ∧
      (∀ v ∈ (s.set_samples_per_unit frame_to_pixel spp).2.region_views,
        v.samples_per_unit = spp) ∧
      (s.set_samples_per_unit frame_to_pixel spp).2.rec_rects.map
          (fun b => (b.start, b.length)) = s.rec_rects.map (fun b => (b.start, b.length)) ∧
      (∀ b ∈ (s.set_samples_per_unit frame_to_pixel spp).2.rec_rects,
        b.rectangle.x1 = frame_to_pixel b.start ∧
        b.rectangle.x2 = frame_to_pixel ((b.start + b.length) % UINT32_SIZE) ∧
        (b.start + b.length < UINT32_SIZE →
          b.rectangle.x2 = frame_to_pixel (b.start + b.length)))) := by
  have key : ∀ x : ℚ, ((s.set_samples_per_unit frame_to_pixel x).1 = -1 ↔ x < 1) := by
    intro x
    unfold StreamView.set_samples_per_unit
    by_cases hx : x < 1
    · simp [hx]
    · simp [hx]
  refine ⟨key spp, (key (1 / 2)).mpr (by norm_num), ?_, ?_, ?_⟩
  · unfold StreamView.set_samples_per_unit
    rw [if_neg (by norm_num)]
  · intro hx
    unfold StreamView.set_samples_per_unit
    rw [if_pos hx]
  · intro hx
    have he : s.set_samples_per_unit frame_to_pixel spp =
        (0, ({ s with
          _samples_per_unit := spp
          region_views := s.region_views.map (fun v => v.set_samples_per_unit spp)
          rec_rects := s.rec_rects.map (reproject_rec_rect frame_to_pixel) } :
            StreamView).update_coverage_frames) := by
      unfold StreamView.set_samples_per_unit
      rw [if_neg hx]
    rw [he]
    refine ⟨rfl, rfl, ?_, ?_, ?_, ?_⟩
    · simp [StreamView.update_coverage_frames, List.map_map, Function.comp_def,
        RegionView.update_coverage_frames, RegionView.set_samples_per_unit]
    · intro v hv
      simp only [StreamView.update_coverage_frames, List.map_map, List.mem_map] at hv
      obtain ⟨u, _, rfl⟩ := hv
      rfl
    · simp [StreamView.update_coverage_frames, List.map_map, Function.comp_def,
        reproject_rec_rect]
    · intro b hb
      simp only [StreamView.update_coverage_frames, List.mem_map] at hb
      obtain ⟨u, _, rfl⟩ := hb
      refine ⟨rfl, rfl, fun hlt => ?_⟩
      have hlt2 : u.start + u.length < UINT32_SIZE := hlt
      show frame_to_pixel ((u.start + u.length) % UINT32_SIZE) = frame_to_pixel (u.start + u.length)
      rw [Nat.mod_eq_of_lt hlt2]

/-- Witness of C14 (amended): scale 2 is accepted and stored. -/
theorem set_samples_per_unit_spec_witness :
    (sample_recording.set_samples_per_unit sample_frame_to_pixel 2).2._samples_per_unit = 2 :=
  ((set_samples_per_unit_spec sample_recording sample_frame_to_pixel 2).2.2.2.2
    (by norm_num)).2.1

/-! ## Theorems: selection -/

theorem selection_contains_iff (v : RegionView) (regions : List Nat) :
    selection_contains v regions = true ↔ v.id ∈ regions := by
  induction regions with
  | nil => simp [selection_contains]
  | cons ii rest ih =>
    unfold selection_contains
    by_cases h : v.id = ii
    · simp [h]
    · simp [h, ih]

theorem count_selected_eq (vs : List RegionView) (cnt : Nat)
    (hlt : cnt + vs.length < UINT32_SIZE) :
    count_selected vs cnt = cnt + (vs.filter (fun v => v.selected)).length := by
  induction vs generalizing cnt with
  | nil => simp [count_selected]
  | cons v rest ih =>
    simp only [List.length_cons] at hlt
    unfold count_selected
    cases hv : v.selected
    · simp only [Bool.false_eq_true, if_false, List.filter_cons, hv]
      rw [ih cnt (by omega)]
    · simp only [if_true, List.filter_cons, List.length_cons, hv]
      rw [Nat.mod_eq_of_lt (by omega), ih (cnt + 1) (by omega)]
      omega

/-- C15: after `set_selected_regionviews S` the registry holds the same views,
each selected exactly when it is one of the views of `S`, whatever was selected
before; `num_selected_regionviews` (the registry holding fewer views than its
`uint32_t` counter can count) then returns the number of tracked views that are
in `S`, and 0 for the empty selection. -/
theorem set_selected_regionviews_spec (s : StreamView) (regions : List Nat) :
    (s.set_selected_regionviews regions).region_views.map (fun v => (v.id, v.region)) =
      s.region_views.map (fun v => (v.id, v.region)) ∧
    (∀ v ∈ (s.set_selected_regionviews regions).region_views,
      (v.selected = true ↔ v.id ∈ regions)) ∧
    (s.region_views.length < UINT32_SIZE →
      (s.set_selected_regionviews regions).num_selected_regionviews =
        (s.region_views.filter (fun v => decide (v.id ∈ regions))).length ∧
      (s.set_selected_regionviews []).num_selected_regionviews = 0) := by
  have hsel : ∀ r : List Nat, ∀ v ∈ (s.set_selected_regionviews r).region_views,
      (v.selected = true ↔ v.id ∈ r) := by
    intro r v hv
    simp only [StreamView.set_selected_regionviews, List.mem_map] at hv
    obtain ⟨u, _, rfl⟩ := hv
    exact selection_contains_iff u r
  have hcount : ∀ r : List Nat, s.region_views.length < UINT32_SIZE →
      (s.set_selected_regionviews r).num_selected_regionviews =
        (s.region_views.filter (fun v => decide (v.id ∈ r))).length := by
    intro r hlen
    unfold StreamView.num_selected_regionviews
    rw [count_selected_eq _ 0 (by simpa [StreamView.set_selected_regionviews] using hlen)]
    simp only [StreamView.set_selected_regionviews, Nat.zero_add, List.filter_map,
      List.length_map]
    congr 1
    apply List.filter_congr
    intro v _
    simp only [Function.comp, RegionView.set_selected]
    rw [Bool.eq_iff_iff, selection_contains_iff]
    simp
  refine ⟨?_, hsel regions, ?_⟩
  · simp [StreamView.set_selected_regionviews, List.map_map, Function.comp_def,
      RegionView.set_selected]
  · intro hlen
    refine ⟨hcount regions hlen, ?_⟩
    rw [hcount [] hlen]
    simp

/-- Witness of C15: three views, view 2 selected before; selecting views 1 and 3
gives a count of 2. -/
theorem set_selected_regionviews_spec_witness :
    ((sample_stream LayerDisplay.Overlaid 3
        [sample_view 1 0 true, (sample_view 2 1 true).set_selected true,
          sample_view 3 2 true]).set_selected_regionviews [1, 3]).num_selected_regionviews =
      ((sample_stream LayerDisplay.Overlaid 3
        [sample_view 1 0 true, (sample_view 2 1 true).set_selected true,
          sample_view 3 2 true]).region_views.filter
        (fun v => decide (v.id ∈ [1, 3]))).length :=
  ((set_selected_regionviews_spec
    (sample_stream LayerDisplay.Overlaid 3
      [sample_view 1 0 true, (sample_view 2 1 true).set_selected true, sample_view 3 2 true])
    [1, 3]).2.2 (by norm_num [sample_stream, UINT32_SIZE])).1

/-! ## Theorems: remove_region_view and find_view -/

theorem remove_region_view_loop_absent (r : Region) (vs : List RegionView) (z : List Nat)
    (h : ∀ v ∈ vs, v.region.id ≠ r.id) : remove_region_view_loop r vs z = (vs, z) := by
  induction vs with
  | nil => rfl
  | cons v rest ih =>
    unfold remove_region_view_loop
    rw [if_neg (h v (List.mem_cons_self _ _)),
      ih (fun u hu => h u (List.mem_cons_of_mem _ hu))]

theorem remove_region_view_loop_first (r : Region) (pre post : List RegionView)
    (v : RegionView) (z : List Nat) (hpre : ∀ u ∈ pre, u.region.id ≠ r.id)
    (hv : v.region.id = r.id) :
    remove_region_view_loop r (pre ++ v :: post) z = (pre ++ post, destroy_view v z) := by
  induction pre with
  | nil =>
    simp only [List.nil_append]
    unfold remove_region_view_loop
    rw [if_pos hv]
  | cons u rest ih =>
    simp only [List.cons_append]
    unfold remove_region_view_loop
    rw [if_neg (hpre u (List.mem_cons_self _ _)),
      ih (fun w hw => hpre w (List.mem_cons_of_mem _ hw))]

theorem exists_first_of_region (r : Region) (vs : List RegionView) (v : RegionView)
    (hvmem : v ∈ vs) (hv : v.region.id = r.id) :
    ∃ pre post w, vs = pre ++ w :: post ∧
      (∀ u ∈ pre, u.region.id ≠ r.id) ∧ w.region.id = r.id := by
  induction vs with
  | nil => cases hvmem
  | cons x xs ih =>
    by_cases hx : x.region.id = r.id
    · refine ⟨[], xs, x, rfl, ?_, hx⟩
      intro u hu
      cases hu
    · rcases List.mem_cons.mp hvmem with h | h
      · exact absurd (h ▸ hv) hx
      · obtain ⟨pre, post, w, he, hp, hw⟩ := ih h
        refine ⟨x :: pre, post, w, by rw [he]; rfl, ?_, hw⟩
        intro u hu
        rcases List.mem_cons.mp hu with h2 | h2
        · rw [h2]; exact hx
        · exact hp u h2

/-- C16: `remove_region_view r` leaves the state unchanged when no tracked view
has region `r` (or the weak pointer has expired); otherwise it removes exactly
the first view whose region is `r`, with its canvas group, and keeps all other
views in their order. When no two views share a region, `find_view r` returns
nothing afterwards and `find_view` of every other region is unchanged. -/
theorem remove_region_view_spec (s : StreamView) (r : Region) :
    s.remove_region_view none = s ∧
    ((∀ v ∈ s.region_views, v.region.id ≠ r.id) → s.remove_region_view (some r) = s) ∧
    (∀ pre post v, s.region_views = pre ++ v :: post →
      (∀ u ∈ pre, u.region.id ≠ r.id) → v.region.id = r.id →
      (s.remove_region_view (some r)).region_views = pre ++ post ∧
      (s.remove_region_view (some r)).canvas_children = destroy_view v s.canvas_children) ∧
    ((s.region_views.map (fun v => v.region.id)).Nodup →
      (s.remove_region_view (some r)).find_view r = none ∧
      ∀ r2 : Region, r2.id ≠ r.id →
        (s.remove_region_view (some r)).find_view r2 = s.find_view r2) := by
  refine ⟨rfl, ?_, ?_, ?_⟩
  · intro h
    unfold StreamView.remove_region_view
    simp only [remove_region_view_loop_absent r _ _ h]
  · intro pre post v hs hpre hv
    unfold StreamView.remove_region_view
    simp only [hs, remove_region_view_loop_first r pre post v _ hpre hv]
    exact ⟨trivial, trivial⟩
  · intro hn
    by_cases hex : ∃ v ∈ s.region_views, v.region.id = r.id
    · obtain ⟨v, hvmem, hv⟩ := hex
      -- split the registry at the first view of region r
      obtain ⟨pre, post, w, hs, hpre, hw⟩ := exists_first_of_region r s.region_views v hvmem hv
      have hrv : (s.remove_region_view (some r)).region_views = pre ++ post := by
        unfold StreamView.remove_region_view
        simp only [hs, remove_region_view_loop_first r pre post w _ hpre hw]
      rw [hs, List.map_append, List.map_cons] at hn
      have hn2 := List.nodup_append.mp hn
      have hwpost : ∀ u ∈ post, u.region.id ≠ r.id := by
        intro u hu he
        have := (List.nodup_cons.mp hn2.2.1).1
        apply this
        rw [hw, ← he]
        exact List.mem_map_of_mem _ hu
      constructor
      · unfold StreamView.find_view
        rw [hrv, List.find?_eq_none]
        intro u hu
        rcases List.mem_append.mp hu with h | h
        · simpa using hpre u h
        · simpa using hwpost u h
      · intro r2 hr2
        unfold StreamView.find_view
        rw [hrv, hs]
        simp only [List.find?_append, List.find?_cons]
        have : decide (w.region.id = r2.id) = false := by
          simp only [decide_eq_false_iff_not]
          rw [hw]
          exact fun h => hr2 h.symm
        rw [this]
    · have habs : ∀ v ∈ s.region_views, v.region.id ≠ r.id :=
        fun v hv he => hex ⟨v, hv, he⟩
      have hsame : s.remove_region_view (some r) = s := by
        unfold StreamView.remove_region_view
        simp only [remove_region_view_loop_absent r _ _ habs]
      rw [hsame]
      refine ⟨?_, fun _ _ => rfl⟩
      unfold StreamView.find_view
      rw [List.find?_eq_none]
      intro u hu
      simpa using habs u hu

/-- Witness of C16: removing the region of view 2 from a registry of three views
keeps views 1 and 3 in their order. -/
theorem remove_region_view_spec_witness :
    ((sample_stream LayerDisplay.Overlaid 3
        [sample_view 1 0 true, sample_view 2 1 true, sample_view 3 2 true]).remove_region_view
      (some { id := 2, layer := 1 })).region_views =
      [sample_view 1 0 true] ++ [sample_view 3 2 true] :=
  ((remove_region_view_spec
    (sample_stream LayerDisplay.Overlaid 3
      [sample_view 1 0 true, sample_view 2 1 true, sample_view 3 2 true])
    { id := 2, layer := 1 }).2.2.1 [sample_view 1 0 true] [sample_view 3 2 true]
      (sample_view 2 1 true) rfl (by decide) rfl).1

/-! ## Theorems: layer_regions, purge and permutation -/

/-- C17: after `layer_regions` the registry is the list of the views that were
valid, in their original order (their display enabled): every invalid view is
gone and every valid view is still there. -/
theorem layer_regions_purges_invalid (s : StreamView) :
    s.layer_regions.region_views =
      (s.region_views.filter (fun v => v.valid)).map (fun v => v.enable_display true) ∧
    s.layer_regions.region_views.map (fun v => (v.id, v.region)) =
      (s.region_views.filter (fun v => v.valid)).map (fun v => (v.id, v.region)) ∧
    (∀ v ∈ s.layer_regions.region_views, v.valid = true) ∧
    (∀ v ∈ s.region_views, v.valid = true →
      v.enable_display true ∈ s.layer_regions.region_views) ∧
    ((s.region_views.map (fun v => v.id)).Nodup →
      ∀ v ∈ s.region_views, v.valid = false →
        v.id ∉ s.layer_regions.region_views.map (fun u => u.id)) := by
  have h1 : s.layer_regions.region_views = valid_views s.region_views := by
    simp [StreamView.layer_regions, (layer_regions_scan_eq _ _ _ _).1]
  refine ⟨h1, ?_, ?_, ?_, ?_⟩
  · rw [h1]
    simp [valid_views, List.map_map, Function.comp_def, RegionView.enable_display]
  · rw [h1]
    exact valid_views_valid _
  · intro v hv hval
    rw [h1]
    exact mem_valid_views hv hval
  · intro hn v hv hval hmem
    rw [h1] at hmem
    obtain ⟨u, hu, hid⟩ := List.mem_map.mp hmem
    obtain ⟨w, hw, hwval, rfl⟩ := mem_valid_views_iff.mp hu
    have hidw : w.id = v.id := hid
    have hwv : w = v := List.inj_on_of_nodup_map hn hw hv hidw
    rw [hwv, hval] at hwval
    cases hwval

/-- Witness of C17: the invalid view 2 is purged, views 1 and 3 stay. -/
theorem layer_regions_purges_invalid_witness :
    (sample_view 3 0 true).enable_display true ∈
      (sample_stream LayerDisplay.Overlaid 3
        [sample_view 1 2 true, sample_view 2 1 false,
          sample_view 3 0 true]).layer_regions.region_views :=
  (layer_regions_purges_invalid
    (sample_stream LayerDisplay.Overlaid 3
      [sample_view 1 2 true, sample_view 2 1 false, sample_view 3 0 true])).2.2.2.1
    (sample_view 3 0 true) (by decide) rfl

theorem layer_regions_scan_canvas_eq (vs kept copy : List RegionView) (z : List Nat) :
    (layer_regions_scan vs kept copy z).2.2 =
      z.filter (fun c => decide (c ∉ (vs.filter (fun v => !v.valid)).map (fun v => v.id))) := by
  induction vs generalizing kept copy z with
  | nil => simp [layer_regions_scan]
  | cons v rest ih =>
    unfold layer_regions_scan
    cases hv : v.valid
    · simp only [Bool.not_false, if_true, List.filter_cons, hv, List.map_cons]
      rw [ih, destroy_view, List.filter_filter]
      apply List.filter_congr
      intro c _
      simp [List.mem_cons, not_or, Bool.and_comm]
    · simp only [Bool.not_true, Bool.false_eq_true, if_false, List.filter_cons, hv]
      exact ih _ _ _

theorem valid_views_ids (vs : List RegionView) :
    (valid_views vs).map (fun v => v.id) = (vs.filter (fun v => v.valid)).map (fun v => v.id) := by
  simp [valid_views, List.map_map, Function.comp_def, RegionView.enable_display]

/-- C19: the sequence of views `layer_regions` raises is a permutation of the
valid views and none is dropped; the z-order of the canvas after
`layer_regions` is what raising each view of that sequence once, in order,
makes of the z-order left by the deletion of the invalid views: for a registry
of distinct views it is the children that are no tracked views followed by the
valid views in the raise sequence, each exactly once. The inner loop finds an
insertion point whenever the layer of the view is below the last layer of the
list sorted so far. -/
theorem layer_regions_order_is_permutation (s : StreamView) :
    s.layer_regions_order.Perm
      ((s.region_views.filter (fun v => v.valid)).map (fun v => v.enable_display true)) ∧
    (∀ v ∈ s.region_views, v.valid = true →
      v.enable_display true ∈ s.layer_regions_order) ∧
    s.layer_regions.canvas_children =
      (s.layer_regions_order.map (fun v => v.id)).foldl (fun z x => raise_to_top x z)
        (s.canvas_children.filter (fun c =>
          decide (c ∉ (s.region_views.filter (fun v => !v.valid)).map (fun v => v.id)))) ∧
    ((s.region_views.map (fun v => v.id)).Nodup →
      s.layer_regions_order.Nodup ∧
      s.layer_regions.canvas_children =
        s.canvas_children.filter (fun c => decide (c ∉ s.region_views.map (fun v => v.id))) ++
          s.layer_regions_order.map (fun v => v.id) ∧
      ∀ v ∈ s.region_views, v.valid = true →
        s.layer_regions.canvas_children.count v.id = 1) ∧
    (∀ (v : RegionView) (copy : List RegionView) (hne : copy ≠ []),
      v.region.layer < (copy.getLast hne).region.layer →
      (layer_regions_insert v copy).Perm (v :: copy)) ∧
    (∀ (v : RegionView) (copy : List RegionView),
      (layer_regions_place copy v).Perm (v :: copy)) := by
  have hcanvas : s.layer_regions.canvas_children =
      raise_all (s.layer_regions_order.map (fun v => v.id))
        (s.canvas_children.filter (fun c =>
          decide (c ∉ (s.region_views.filter (fun v => !v.valid)).map (fun v => v.id)))) := by
    rw [← layer_regions_scan_canvas_eq s.region_views [] [] s.canvas_children]
    rfl
  have hfold : ∀ (c z : List Nat), raise_all c z = c.foldl (fun z x => raise_to_top x z) z := by
    intro c
    induction c with
    | nil => intro z; rfl
    | cons x xs ih => intro z; exact ih _
  refine ⟨layer_regions_order_perm s, ?_, ?_, ?_, ?_, ?_⟩
  · intro v hv hval
    exact (layer_regions_order_perm s).mem_iff.mpr (mem_valid_views hv hval)
  · rw [hcanvas, hfold]
  · intro hn
    have hids : (s.layer_regions_order.map (fun v => v.id)).Nodup :=
      ((layer_regions_order_perm s).map _).nodup_iff.mpr
        (List.Nodup.sublist (valid_views_ids_sublist s.region_views) hn)
    have hmemid : ∀ c : Nat, c ∈ s.layer_regions_order.map (fun v => v.id) ↔
        c ∈ (s.region_views.filter (fun v => v.valid)).map (fun v => v.id) := by
      intro c
      rw [((layer_regions_order_perm s).map (fun v => v.id)).mem_iff, valid_views_ids]
    have hz : s.layer_regions.canvas_children =
        s.canvas_children.filter (fun c => decide (c ∉ s.region_views.map (fun v => v.id))) ++
          s.layer_regions_order.map (fun v => v.id) := by
      rw [hcanvas, raise_all_eq, raise_all_nil_of_nodup _ hids, List.filter_filter]
      congr 1
      apply List.filter_congr
      intro c _
      rw [Bool.eq_iff_iff]
      simp only [Bool.and_eq_true, decide_eq_true_eq, hmemid, List.mem_map, List.mem_filter]
      constructor
      · rintro ⟨h1, h2⟩ ⟨v, hv, hid⟩
        cases hval : v.valid
        · exact h2 ⟨v, ⟨hv, by simp [hval]⟩, hid⟩
        · exact h1 ⟨v, ⟨hv, hval⟩, hid⟩
      · intro h
        exact ⟨fun ⟨v, ⟨hv, _⟩, hid⟩ => h ⟨v, hv, hid⟩, fun ⟨v, ⟨hv, _⟩, hid⟩ => h ⟨v, hv, hid⟩⟩
    refine ⟨(layer_regions_order_perm s).nodup_iff.mpr (valid_views_nodup _ hn), hz, ?_⟩
    intro v hv hval
    rw [hz, List.count_append]
    have h0 : (s.canvas_children.filter
        (fun c => decide (c ∉ s.region_views.map (fun v => v.id)))).count v.id = 0 := by
      apply List.count_eq_zero_of_not_mem
      intro hmem
      have := (List.mem_filter.mp hmem).2
      simp only [decide_eq_true_eq] at this
      exact this (List.mem_map_of_mem _ hv)
    have h1 : (s.layer_regions_order.map (fun v => v.id)).count v.id = 1 := by
      apply List.count_eq_one_of_mem hids
      have hm := (layer_regions_order_perm s).mem_iff.mpr (mem_valid_views hv hval)
      exact List.mem_map.mpr ⟨v.enable_display true, hm, rfl⟩
    rw [h0, h1]
  · intro v copy hne hlt
    exact layer_regions_insert_perm v copy ⟨copy.getLast hne, List.getLast_mem _, le_of_lt hlt⟩
  · intro v copy
    exact layer_regions_place_perm copy v

/-- Witness of C19: the invalid view 2 is deleted, then view 3 (layer 0) and
view 1 (layer 2) are raised in that order. -/
theorem layer_regions_order_is_permutation_witness :
    (sample_stream LayerDisplay.Overlaid 3
      [sample_view 1 2 true, sample_view 2 1 false,
        sample_view 3 0 true]).layer_regions.canvas_children =
      (sample_stream LayerDisplay.Overlaid 3
        [sample_view 1 2 true, sample_view 2 1 false,
          sample_view 3 0 true]).canvas_children.filter
        (fun c => decide (c ∉ (sample_stream LayerDisplay.Overlaid 3
          [sample_view 1 2 true, sample_view 2 1 false,
            sample_view 3 0 true]).region_views.map (fun v => v.id))) ++
        (sample_stream LayerDisplay.Overlaid 3
          [sample_view 1 2 true, sample_view 2 1 false,
            sample_view 3 0 true]).layer_regions_order.map (fun v => v.id) :=
  ((layer_regions_order_is_permutation
    (sample_stream LayerDisplay.Overlaid 3
      [sample_view 1 2 true, sample_view 2 1 false, sample_view 3 0 true])).2.2.2.1
    (by decide)).2.1

/-! ## Theorems: re-projection after a tick -/

theorem nframes_sum_of_difference (a c : Nat) (ha : a < UINT32_SIZE) (hc : c < UINT32_SIZE) :
    (a + (c + UINT32_SIZE - a) % UINT32_SIZE) % UINT32_SIZE = c := by
  unfold UINT32_SIZE at *
  omega

/-- Counterexample to C18 as stated: in Destructive mode a tick with capture
start 1000 and capture end 1500 draws the box from `frame_to_pixel 1000` to
`frame_to_pixel 1500`; `set_samples_per_unit` at the same zoom then moves the
right edge to `frame_to_pixel 1002`. -/
theorem reprojection_moves_destructive_box :
    (sample_recording.update_rec_box TrackMode.Destructive sample_frame_to_pixel
      1000 1500).rec_rects.map (fun b => (b.rectangle.x1, b.rectangle.x2)) = [(500, 750)] ∧
    ((sample_recording.update_rec_box TrackMode.Destructive sample_frame_to_pixel
      1000 1500).set_samples_per_unit sample_frame_to_pixel 1).2.rec_rects.map
        (fun b => (b.rectangle.x1, b.rectangle.x2)) = [(500, 501)] := by
  constructor
  · norm_num [StreamView.update_rec_box, sample_recording, sample_stream, modify_back,
      update_rec_rect, sample_frame_to_pixel]
  · norm_num [StreamView.update_rec_box, sample_recording, sample_stream, modify_back,
      update_rec_rect, sample_frame_to_pixel, StreamView.set_samples_per_unit,
      StreamView.update_coverage_frames, reproject_rec_rect, UINT32_SIZE]

/-- C18 (amended): right after a tick of `update_rec_box` on the active box `b`
(start and capture end being `nframes_t` values), `set_samples_per_unit` at an
unchanged zoom leaves the last box exactly as the tick drew it in Normal and
NonLayered mode; in Destructive mode an accepted `set_samples_per_unit` draws
it from `frame_to_pixel start` to `frame_to_pixel (start + 2)` (the sum in
`nframes_t`), where the tick drew it from `frame_to_pixel capture_start` to
`frame_to_pixel capture_end`. -/
theorem reprojection_after_tick (s : StreamView) (mode : TrackMode) (frame_to_pixel : Nat → ℚ)
    (capture_start capture_end : Nat) (spp : ℚ) (boxes : List RecBoxInfo) (b : RecBoxInfo)
    (hact : s.rec_active = true) (hrects : s.rec_rects = boxes ++ [b])
    (hstart : b.start < UINT32_SIZE) (hend : capture_end < UINT32_SIZE) :
    ∃ b2 : RecBoxInfo,
      (s.update_rec_box mode frame_to_pixel capture_start capture_end).rec_rects =
        boxes ++ [b2] ∧
      (mode = TrackMode.Normal ∨ mode = TrackMode.NonLayered →
        ((s.update_rec_box mode frame_to_pixel capture_start capture_end).set_samples_per_unit
          frame_to_pixel spp).2.rec_rects.getLast? = some b2) ∧
      (mode = TrackMode.Destructive →
        b2.rectangle.x1 = frame_to_pixel capture_start ∧
        b2.rectangle.x2 = frame_to_pixel capture_end ∧
        (¬ spp < 1 →
          ((s.update_rec_box mode frame_to_pixel capture_start capture_end).set_samples_per_unit
            frame_to_pixel spp).2.rec_rects.getLast? =
            some { b2 with rectangle := { b2.rectangle with
              x1 := frame_to_pixel b.start
              x2 := frame_to_pixel ((b.start + 2) % UINT32_SIZE) } })) := by
  have htick : (s.update_rec_box mode frame_to_pixel capture_start capture_end).rec_rects =
      boxes ++ [update_rec_rect mode frame_to_pixel capture_start capture_end b] := by
    unfold StreamView.update_rec_box
    have hpos : s.rec_rects.length > 0 := by simp [hrects]
    simp only [hact, hpos, decide_True, Bool.and_self, if_true]
    rw [hrects, modify_back_append_singleton]
  have hafter : ¬ spp < 1 →
      ((s.update_rec_box mode frame_to_pixel capture_start capture_end).set_samples_per_unit
        frame_to_pixel spp).2.rec_rects.getLast? =
        some (reproject_rec_rect frame_to_pixel
          (update_rec_rect mode frame_to_pixel capture_start capture_end b)) := by
    intro hx
    unfold StreamView.set_samples_per_unit
    rw [if_neg hx]
    simp [StreamView.update_coverage_frames, htick]
  refine ⟨update_rec_rect mode frame_to_pixel capture_start capture_end b, htick, ?_, ?_⟩
  · intro hmode
    by_cases hx : spp < 1
    · unfold StreamView.set_samples_per_unit
      rw [if_pos hx, htick]
      simp
    · rw [hafter hx]
      rcases hmode with rfl | rfl <;>
        simp [reproject_rec_rect, update_rec_rect,
          nframes_sum_of_difference b.start capture_end hstart hend]
  · intro hmode
    subst hmode
    refine ⟨rfl, rfl, fun hx => ?_⟩
    rw [hafter hx]
    rfl

/-- Witness of C18 (amended): a Normal tick with capture end 1500, then
`set_samples_per_unit 1`. -/
theorem reprojection_after_tick_witness :
    ∃ b2 : RecBoxInfo,
      (sample_recording.update_rec_box TrackMode.Normal sample_frame_to_pixel
        1000 1500).rec_rects = [] ++ [b2] ∧
      ((sample_recording.update_rec_box TrackMode.Normal sample_frame_to_pixel
        1000 1500).set_samples_per_unit sample_frame_to_pixel 1).2.rec_rects.getLast? =
        some b2 :=
  match reprojection_after_tick sample_recording TrackMode.Normal sample_frame_to_pixel
    1000 1500 1 []
    { rectangle := { x1 := 500, y1 := 1, x2 := 500, y2 := 99 }, start := 1000, length := 0 }
    rfl rfl (by norm_num [UINT32_SIZE]) (by norm_num [UINT32_SIZE]) with
  | ⟨b2, h1, h2, _⟩ => ⟨b2, h1, h2 (Or.inl rfl)⟩

/-! ## Theorems: the layer count -/

theorem playlist_layered_layers (s : StreamView) (ds : Diskstream) :
    (∀ pl, ds.playlist = some pl →
      (s.playlist_layered (some ds))._layers = (pl.top_layer + 1) % UINT32_SIZE) ∧
    (ds.playlist = none → (s.playlist_layered (some ds))._layers = s._layers) := by
  obtain ⟨n, h1, h2, he⟩ := playlist_layered_eq s ds
  have hl : (s.playlist_layered (some ds))._layers = n := by
    rw [he]
    split <;> rfl
  exact ⟨fun pl hp => by rw [hl, h1 pl hp], fun hp => by rw [hl, h2 hp]⟩

theorem set_height_layers (s : StreamView) (h : ℚ) : (s.set_height h).2._layers = s._layers := by
  unfold StreamView.set_height
  split
  · rfl
  · split <;> rfl

theorem child_height_pos (s : StreamView) (hL : 1 ≤ s._layers) (hH : 0 < s.height) :
    0 < s.child_height := by
  unfold StreamView.child_height
  split
  · exact round_double_pos _ (div_pos hH (by exact_mod_cast hL))
  · exact hH

/-- C20: in every reachable state the layer count is at least 1, so
`child_height` does not divide by zero and is positive when the lane height
is; after `playlist_layered` or `playlist_switched` with a playlist whose top
layer is below the maximum of `layer_t` the layer count is `top_layer + 1`;
`playlist_layered` for an expired diskstream or a diskstream without playlist
leaves the layer count unchanged. -/
theorem layers_at_least_one :
    (∀ s : StreamView, s.Reachable →
      1 ≤ s._layers ∧ s._layers ≠ 0 ∧ (0 < s.height → 0 < s.child_height)) ∧
    (∀ (s : StreamView) (ds : Diskstream) (pl : Playlist),
      ds.playlist = some pl → pl.top_layer + 1 < UINT32_SIZE →
      (s.playlist_layered (some ds))._layers = pl.top_layer + 1 ∧
      ∀ redisplayed : List RegionView, ∃ t : StreamView,
        s.playlist_switched (some ds) redisplayed = some t ∧ t._layers = pl.top_layer + 1) ∧
    (∀ s : StreamView, (s.playlist_layered none)._layers = s._layers ∧
      (s.playlist_layered (some { playlist := none }))._layers = s._layers) := by
  have hinv : ∀ s : StreamView, s.Reachable → 1 ≤ s._layers := by
    intro s hr
    induction hr with
    | construct zoom h ch w => exact le_refl 1
    | playlist_layered s wds _ hcond ih =>
      cases wds with
      | none => exact ih
      | some ds =>
        cases hp : ds.playlist with
        | none => rw [(playlist_layered_layers s ds).2 hp]; exact ih
        | some pl =>
          rw [(playlist_layered_layers s ds).1 pl hp,
            Nat.mod_eq_of_lt (hcond ds pl rfl hp)]
          exact Nat.le_add_left 1 _
    | playlist_switched s t wds vs _ hcond hsw ih =>
      cases wds with
      | none =>
        have : t = s := by
          simp only [StreamView.playlist_switched] at hsw
          exact (Option.some.inj hsw).symm
        rw [this]; exact ih
      | some ds =>
        cases hp : ds.playlist with
        | none => simp [StreamView.playlist_switched, hp] at hsw
        | some pl =>
          simp only [StreamView.playlist_switched, hp] at hsw
          rw [← Option.some.inj hsw]
          show 1 ≤ (pl.top_layer + 1) % UINT32_SIZE
          rw [Nat.mod_eq_of_lt (hcond ds pl rfl hp)]
          exact Nat.le_add_left 1 _
    | set_layer_display s d _ ih => exact ih
    | set_height s h _ ih => rw [set_height_layers]; exact ih
    | layer_regions s _ ih => exact ih
  refine ⟨?_, ?_, ?_⟩
  · intro s hr
    have h1 := hinv s hr
    exact ⟨h1, Nat.one_le_iff_ne_zero.mp h1, child_height_pos s h1⟩
  · intro s ds pl hp hlt
    constructor
    · rw [(playlist_layered_layers s ds).1 pl hp, Nat.mod_eq_of_lt hlt]
    · intro vs
      refine ⟨((({ s.undisplay_diskstream with
        _layers := (pl.top_layer + 1) % UINT32_SIZE } :
          StreamView).update_contents_height).update_coverage_frames).redisplay_diskstream vs,
        ?_, ?_⟩
      · simp only [StreamView.playlist_switched, hp]
      · show (pl.top_layer + 1) % UINT32_SIZE = pl.top_layer + 1
        exact Nat.mod_eq_of_lt hlt
  · intro s
    exact ⟨rfl, (playlist_layered_layers s { playlist := none }).2 rfl⟩

/-- Witness of C20: a constructed stream view notified of a playlist whose top
layer is 3. -/
theorem layers_at_least_one_witness :
    1 ≤ ((StreamView.construct 1 100 100 1000).playlist_layered
      (some { playlist := some { top_layer := 3 } }))._layers ∧
    ((StreamView.construct 1 100 100 1000).playlist_layered
      (some { playlist := some { top_layer := 3 } }))._layers = 3 + 1 :=
  ⟨(layers_at_least_one.1 _
      (StreamView.Reachable.playlist_layered _ _ (StreamView.Reachable.construct 1 100 100 1000)
        (by
          intro ds pl h1 h2
          cases h1
          cases h2
          norm_num [UINT32_SIZE]))).1,
    (layers_at_least_one.2.1 (StreamView.construct 1 100 100 1000)
      { playlist := some { top_layer := 3 } } { top_layer := 3 } rfl
      (by norm_num [UINT32_SIZE])).1⟩
